import Mathlib

/-!
# TimeSeriesAnalyzer

A shallow embedding of `time_series_analyzer.hpp` and the properties of its
operations.

Modelling conventions.

* `float` samples are elements of a linear ordered field `K`: sample arithmetic
  is exact (no rounding).  Every definition is computable and can be run at
  `K := ℚ`.
* The IEEE special values that exact inputs can still produce (the square root
  of a negative number, a division by zero) are kept, in the type `Fl`.
* `std::sqrt` is a library function; the square-root function on `K` is a
  parameter of `detect_anomalies`.
* `size_t` values are natural numbers.  Under the guards of the code no
  subtraction goes below zero, and `3 * size()` stays below `2 ^ 64` for every
  `std::vector<float>` that fits in memory, so no index computation wraps.
* `std::vector` is a `List`; `operator[]` is `vec_get` / `vec_set`, which
  report an access outside the vector as `Error.out_of_range` (undefined
  behaviour in C++).
* `throw std::invalid_argument(msg)` is `Except.error (Error.invalid_argument msg)`.
* A method is a function of the object.  Its body is also given as statements
  on the object (`Member`), in which a read of `data`, a step on locals and the
  constructor's assignment to `data` are different steps; a call as a step on
  the object's state, `TimeSeriesAnalyzer.call`, runs that body.
* The `zscore` branch is also given over arbitrary floating-point operations
  (`FloatOps`): IEEE binary32 with rounding to nearest (`binary32`) and exact
  arithmetic (`exact_ops`) are instances.
-/

namespace TimeSeries

/-- Ways in which an operation can fail. -/
inductive Error where
  /-- The exception `std::invalid_argument`, with its message. -/
  | invalid_argument (what : String)
  /-- An `operator[]` access outside the vector. -/
  | out_of_range
  deriving DecidableEq, Repr

/-- Unchecked read `v[i]`. -/
def vec_get {α : Type} (v : List α) (i : Nat) : Except Error α :=
  match v[i]? with
  | some x => Except.ok x
  | none => Except.error Error.out_of_range

/-- Unchecked write `v[i] = x`. -/
def vec_set {α : Type} (v : List α) (i : Nat) (x : α) : Except Error (List α) :=
  if i < v.length then Except.ok (v.set i x) else Except.error Error.out_of_range

/-- Values of a floating-point expression: a number of the field, or one of
the IEEE special values. -/
inductive Fl (K : Type) where
  | fin (x : K)
  | pinf
  | ninf
  | nan
  deriving DecidableEq, Repr

/-- The class `TimeSeriesAnalyzer`: its only member is the private vector `data`. -/
structure TimeSeriesAnalyzer (K : Type) where
  data : List K
  deriving Repr

section Operations

variable {K : Type} [LinearOrderedField K]

/-- IEEE `std::sqrt`: `NaN` on a negative argument, the square root otherwise. -/
def fsqrt (sqrt : K → K) (x : K) : Fl K :=
  if x < 0 then Fl.nan else Fl.fin (sqrt x)

/-- IEEE division `x / y` of a number `x` by a value `y`. -/
def fdiv (x : K) : Fl K → Fl K
  | Fl.nan => Fl.nan
  | Fl.pinf => Fl.fin 0
  | Fl.ninf => Fl.fin 0
  | Fl.fin y =>
    if y = 0 then
      (if x = 0 then Fl.nan else if 0 < x then Fl.pinf else Fl.ninf)
    else Fl.fin (x / y)

/-- IEEE comparison `q > t` of a value `q` with a number `t`. -/
def fgt (q : Fl K) (t : K) : Bool :=
  match q with
  | Fl.fin x => decide (x > t)
  | Fl.pinf => true
  | Fl.ninf => false
  | Fl.nan => false

namespace TimeSeriesAnalyzer

/-- The accessor `get_data`. -/
def get_data (self : TimeSeriesAnalyzer K) : List K :=
  self.data

/-- The constructor `TimeSeriesAnalyzer(const std::vector<float>&)`. -/
def new (data : List K) : Except Error (TimeSeriesAnalyzer K) :=
  if data.isEmpty then
    Except.error (Error.invalid_argument "Input data cannot be empty")
  else
    Except.ok { data := data }

/-- The loop `for (i = ..; i < result.size(); ++i)` of `moving_average`;
`todo` is the number of iterations left, `result.size() - i`. -/
def moving_average_loop (data : List K) (window : Nat) :
    Nat → Nat → K → List K → Except Error (List K)
  | 0, _, _, result => Except.ok result
  | todo + 1, i, sum, result => do
    let x ← vec_get data (i + window - 1)
    let y ← vec_get data (i - 1)
    let sum := sum + (x - y)
    let result ← vec_set result i (sum / (window : K))
    moving_average_loop data window todo (i + 1) sum result

/-- The method `moving_average(size_t window)`. -/
def moving_average (self : TimeSeriesAnalyzer K) (window : Nat) : Except Error (List K) :=
  if window ≤ 0 then
    Except.error (Error.invalid_argument "Window size must be positive")
  else if window > self.data.length then
    Except.error (Error.invalid_argument "Window size cannot exceed data length")
  else do
    let result := List.replicate (self.data.length - window + 1) (0 : K)
    let sum := (self.data.take window).foldl (fun acc x => acc + x) 0
    let result ← vec_set result 0 (sum / (window : K))
    moving_average_loop self.data window (result.length - 1) 1 sum result

/-- The loop `for (t = ..; t < data.size(); ++t)` of `exponential_smoothing`;
`todo` is the number of iterations left, `data.size() - t`. -/
def exponential_smoothing_loop (data : List K) (alpha : K) :
    Nat → Nat → List K → Except Error (List K)
  | 0, _, smoothed => Except.ok smoothed
  | todo + 1, t, smoothed => do
    let x ← vec_get data t
    let prev ← vec_get smoothed (t - 1)
    let smoothed ← vec_set smoothed t (alpha * x + (1 - alpha) * prev)
    exponential_smoothing_loop data alpha todo (t + 1) smoothed

/-- The method `exponential_smoothing(float alpha)`. -/
def exponential_smoothing (self : TimeSeriesAnalyzer K) (alpha : K) :
    Except Error (List K) :=
  if alpha < 0 ∨ alpha > 1 then
    Except.error (Error.invalid_argument "Alpha must be between 0 and 1")
  else do
    let smoothed := List.replicate self.data.length (0 : K)
    let x ← vec_get self.data 0
    let smoothed ← vec_set smoothed 0 x
    exponential_smoothing_loop self.data alpha (self.data.length - 1) 1 smoothed

/-- The loop of the `zscore` branch; `todo` is `data.size() - i`. -/
def zscore_loop (data : List K) (mean : K) (std_dev : Fl K) (threshold : K) :
    Nat → Nat → List Bool → Except Error (List Bool)
  | 0, _, anomalies => Except.ok anomalies
  | todo + 1, i, anomalies => do
    let x ← vec_get data i
    let anomalies ← vec_set anomalies i (fgt (fdiv |x - mean| std_dev) threshold)
    zscore_loop data mean std_dev threshold todo (i + 1) anomalies

/-- The loop of the `iqr` branch; `todo` is `data.size() - i`. -/
def iqr_loop (data : List K) (lower_bound upper_bound : K) :
    Nat → Nat → List Bool → Except Error (List Bool)
  | 0, _, anomalies => Except.ok anomalies
  | todo + 1, i, anomalies => do
    let x ← vec_get data i
    let anomalies ← vec_set anomalies i (decide (x < lower_bound) || decide (x > upper_bound))
    iqr_loop data lower_bound upper_bound todo (i + 1) anomalies

/-- The method `detect_anomalies(const std::string& method, float threshold)`;
`sqrt` is `std::sqrt`. -/
def detect_anomalies (sqrt : K → K) (self : TimeSeriesAnalyzer K) (method : String)
    (threshold : K) : Except Error (List Bool) :=
  if method = "zscore" then do
    let mean := self.data.foldl (fun acc x => acc + x) 0 / (self.data.length : K)
    let sq_sum := (List.zip self.data self.data).foldl (fun acc p => acc + p.1 * p.2) 0
    let std_dev := fsqrt sqrt (sq_sum / (self.data.length : K) - mean * mean)
    let anomalies := List.replicate self.data.length false
    zscore_loop self.data mean std_dev threshold self.data.length 0 anomalies
  else if method = "iqr" then do
    let sorted_data := self.data.insertionSort (fun a b => a ≤ b)
    let q1_index := sorted_data.length / 4
    let q3_index := 3 * sorted_data.length / 4
    let Q1 ← vec_get sorted_data q1_index
    let Q3 ← vec_get sorted_data q3_index
    let IQR := Q3 - Q1
    let lower_bound := Q1 - threshold * IQR
    let upper_bound := Q3 + threshold * IQR
    let anomalies := List.replicate self.data.length false
    iqr_loop self.data lower_bound upper_bound self.data.length 0 anomalies
  else
    Except.error (Error.invalid_argument "Invalid anomaly detection method")

/-- The call `detect_anomalies()` with the default arguments
`method = "zscore"`, `threshold = 3.0`. -/
def detect_anomalies_default (sqrt : K → K) (self : TimeSeriesAnalyzer K) :
    Except Error (List Bool) :=
  detect_anomalies sqrt self "zscore" 3

end TimeSeriesAnalyzer

end Operations

/-- The sum `s[i] + ... + s[i + w - 1]` of a slice, computed afresh. -/
def slice_sum {K : Type} [LinearOrderedField K] (s : List K) (i w : Nat) : K :=
  ((s.drop i).take w).sum

/-- The arithmetic mean `(s[i] + ... + s[i + w - 1]) / w` of a slice. -/
def slice_mean {K : Type} [LinearOrderedField K] (s : List K) (i w : Nat) : K :=
  slice_sum s i w / (w : K)

/-- The mean of the series in the words of the spec: `(sum of s) / n`. -/
def spec_mean {K : Type} [LinearOrderedField K] (s : List K) : K :=
  s.sum / (s.length : K)

/-- The quantity under the square root in the words of the spec:
`(sum of s[j]^2) / n - mean^2`. -/
def spec_radicand {K : Type} [LinearOrderedField K] (s : List K) : K :=
  (s.map (fun x => x ^ 2)).sum / (s.length : K) - spec_mean s ^ 2

/-- The mean computed by the `zscore` branch:
`std::accumulate(data.begin(), data.end(), 0.0f) / data.size()`. -/
def zscore_mean {K : Type} [LinearOrderedField K] (data : List K) : K :=
  data.foldl (fun acc x => acc + x) 0 / (data.length : K)

/-- The argument of `std::sqrt` in the `zscore` branch:
`sq_sum / data.size() - mean * mean`, with `sq_sum` the `std::inner_product`
of `data` with itself. -/
def zscore_radicand {K : Type} [LinearOrderedField K] (data : List K) : K :=
  (List.zip data data).foldl (fun acc p => acc + p.1 * p.2) 0 / (data.length : K)
    - zscore_mean data * zscore_mean data

/-- The population variance in the words of the spec: the sum of the squared
deviations from the mean, divided by the sample count `n` (not `n - 1`). -/
def population_variance {K : Type} [LinearOrderedField K] (s : List K) : K :=
  1 / (s.length : K) * (s.map (fun x => (x - spec_mean s) ^ 2)).sum

/-- The function `sqrt` is the square root of `K` on the non-negative numbers,
which is what `std::sqrt` is in exact arithmetic. -/
def IsSqrt {K : Type} [LinearOrderedField K] (sqrt : K → K) : Prop :=
  ∀ x, 0 ≤ x → 0 ≤ sqrt x ∧ sqrt x * sqrt x = x

/-- A call of one of the three analysis methods, with its arguments. -/
inductive Call (K : Type) where
  | moving_average (window : Nat)
  | exponential_smoothing (alpha : K)
  | detect_anomalies (method : String) (threshold : K)

/-- The value a call returns: a `std::vector<float>` or a `std::vector<bool>`. -/
inductive Value (K : Type) where
  | floats (v : List K)
  | flags (v : List Bool)
  deriving DecidableEq

/-- The body of a member function, as a function of the object: run on an
object it gives the outcome, a value or an exception, and the object
afterwards. -/
def Member (K α : Type) : Type :=
  TimeSeriesAnalyzer K → Except Error α × TimeSeriesAnalyzer K

/-- The statement `return x`. -/
def Member.ret {K α : Type} (x : α) : Member K α :=
  fun self => (Except.ok x, self)

/-- The statement `throw e`: the object stays as it is at the throw. -/
def Member.raise {K α : Type} (e : Error) : Member K α :=
  fun self => (Except.error e, self)

/-- Sequencing: `f` runs on the object left by `m`, unless `m` threw. -/
def Member.seq {K α β : Type} (m : Member K α) (f : α → Member K β) : Member K β :=
  fun self =>
    match m self with
    | (Except.ok x, self') => f x self'
    | (Except.error e, self') => (Except.error e, self')

/-- A read of the member `data`. -/
def Member.read_data {K : Type} : Member K (List K) :=
  fun self => (Except.ok self.data, self)

/-- The assignment `this->data = v`. -/
def Member.write_data {K : Type} (v : List K) : Member K Unit :=
  fun _ => (Except.ok (), { data := v })

/-- A step on local variables only: an element access of a local vector or
of a copy of `data` that has been read, which can fail. -/
def Member.on_locals {K α : Type} (r : Except Error α) : Member K α :=
  fun self => (r, self)

instance Member.instMonad {K : Type} : Monad (Member K) where
  pure := Member.ret
  bind := Member.seq

section Bodies

variable {K : Type} [LinearOrderedField K]

/-- The body of the constructor, run on the object under construction. -/
def TimeSeriesAnalyzer.new_body (data : List K) : Member K Unit :=
  if data.isEmpty then
    Member.raise (Error.invalid_argument "Input data cannot be empty")
  else
    Member.write_data data

/-- The loop of `moving_average` as statements on the object; every `data[..]`
reads the member. -/
def TimeSeriesAnalyzer.moving_average_loop_body (window : Nat) :
    Nat → Nat → K → List K → Member K (List K)
  | 0, _, _, result => Member.ret result
  | todo + 1, i, sum, result => do
    let data ← Member.read_data
    let x ← Member.on_locals (vec_get data (i + window - 1))
    let data ← Member.read_data
    let y ← Member.on_locals (vec_get data (i - 1))
    let sum := sum + (x - y)
    let result ← Member.on_locals (vec_set result i (sum / (window : K)))
    TimeSeriesAnalyzer.moving_average_loop_body window todo (i + 1) sum result

/-- The body of `moving_average(size_t window)` as statements on the object. -/
def TimeSeriesAnalyzer.moving_average_body (window : Nat) : Member K (List K) :=
  if window ≤ 0 then
    Member.raise (Error.invalid_argument "Window size must be positive")
  else do
    let data ← Member.read_data
    if window > data.length then
      Member.raise (Error.invalid_argument "Window size cannot exceed data length")
    else do
      let data ← Member.read_data
      let result := List.replicate (data.length - window + 1) (0 : K)
      let data ← Member.read_data
      let sum := (data.take window).foldl (fun acc x => acc + x) 0
      let result ← Member.on_locals (vec_set result 0 (sum / (window : K)))
      TimeSeriesAnalyzer.moving_average_loop_body window (result.length - 1) 1 sum result

/-- The loop of `exponential_smoothing` as statements on the object. -/
def TimeSeriesAnalyzer.exponential_smoothing_loop_body (alpha : K) :
    Nat → Nat → List K → Member K (List K)
  | 0, _, smoothed => Member.ret smoothed
  | todo + 1, t, smoothed => do
    let data ← Member.read_data
    let x ← Member.on_locals (vec_get data t)
    let prev ← Member.on_locals (vec_get smoothed (t - 1))
    let smoothed ← Member.on_locals (vec_set smoothed t (alpha * x + (1 - alpha) * prev))
    TimeSeriesAnalyzer.exponential_smoothing_loop_body alpha todo (t + 1) smoothed

/-- The body of `exponential_smoothing(float alpha)` as statements on the
object. -/
def TimeSeriesAnalyzer.exponential_smoothing_body (alpha : K) : Member K (List K) :=
  if alpha < 0 ∨ alpha > 1 then
    Member.raise (Error.invalid_argument "Alpha must be between 0 and 1")
  else do
    let data ← Member.read_data
    let smoothed := List.replicate data.length (0 : K)
    let data ← Member.read_data
    let x ← Member.on_locals (vec_get data 0)
    let smoothed ← Member.on_locals (vec_set smoothed 0 x)
    let data ← Member.read_data
    TimeSeriesAnalyzer.exponential_smoothing_loop_body alpha (data.length - 1) 1 smoothed

/-- The loop of the `zscore` branch as statements on the object. -/
def TimeSeriesAnalyzer.zscore_loop_body (mean : K) (std_dev : Fl K) (threshold : K) :
    Nat → Nat → List Bool → Member K (List Bool)
  | 0, _, anomalies => Member.ret anomalies
  | todo + 1, i, anomalies => do
    let data ← Member.read_data
    let x ← Member.on_locals (vec_get data i)
    let anomalies ← Member.on_locals
      (vec_set anomalies i (fgt (fdiv |x - mean| std_dev) threshold))
    TimeSeriesAnalyzer.zscore_loop_body mean std_dev threshold todo (i + 1) anomalies

/-- The loop of the `iqr` branch as statements on the object. -/
def TimeSeriesAnalyzer.iqr_loop_body (lower_bound upper_bound : K) :
    Nat → Nat → List Bool → Member K (List Bool)
  | 0, _, anomalies => Member.ret anomalies
  | todo + 1, i, anomalies => do
    let data ← Member.read_data
    let x ← Member.on_locals (vec_get data i)
    let anomalies ← Member.on_locals
      (vec_set anomalies i (decide (x < lower_bound) || decide (x > upper_bound)))
    TimeSeriesAnalyzer.iqr_loop_body lower_bound upper_bound todo (i + 1) anomalies

/-- The body of `detect_anomalies(method, threshold)` as statements on the
object.  In the `iqr` branch `sorted_data` is a local vector initialised with a
copy of `data`, and `std::sort` reorders that local vector. -/
def TimeSeriesAnalyzer.detect_anomalies_body (sqrt : K → K) (method : String)
    (threshold : K) : Member K (List Bool) :=
  if method = "zscore" then do
    let data ← Member.read_data
    let mean := data.foldl (fun acc x => acc + x) 0 / (data.length : K)
    let data ← Member.read_data
    let sq_sum := (List.zip data data).foldl (fun acc p => acc + p.1 * p.2) 0
    let data ← Member.read_data
    let std_dev := fsqrt sqrt (sq_sum / (data.length : K) - mean * mean)
    let data ← Member.read_data
    let anomalies := List.replicate data.length false
    let data ← Member.read_data
    TimeSeriesAnalyzer.zscore_loop_body mean std_dev threshold data.length 0 anomalies
  else if method = "iqr" then do
    let data ← Member.read_data
    let sorted_data := data
    let sorted_data := sorted_data.insertionSort (fun a b => a ≤ b)
    let q1_index := sorted_data.length / 4
    let q3_index := 3 * sorted_data.length / 4
    let Q1 ← Member.on_locals (vec_get sorted_data q1_index)
    let Q3 ← Member.on_locals (vec_get sorted_data q3_index)
    let IQR := Q3 - Q1
    let lower_bound := Q1 - threshold * IQR
    let upper_bound := Q3 + threshold * IQR
    let data ← Member.read_data
    let anomalies := List.replicate data.length false
    let data ← Member.read_data
    TimeSeriesAnalyzer.iqr_loop_body lower_bound upper_bound data.length 0 anomalies
  else
    Member.raise (Error.invalid_argument "Invalid anomaly detection method")

end Bodies

/-- One call on an object, as a step of the object's state: the body of the
method is run on the object, and the step gives the outcome of the call (a
value or an exception) and the object the body leaves. -/
def TimeSeriesAnalyzer.call {K : Type} [LinearOrderedField K] (sqrt : K → K)
    (self : TimeSeriesAnalyzer K) : Call K → Except Error (Value K) × TimeSeriesAnalyzer K
  | Call.moving_average window =>
    (Except.map Value.floats (TimeSeriesAnalyzer.moving_average_body window self).1,
      (TimeSeriesAnalyzer.moving_average_body window self).2)
  | Call.exponential_smoothing alpha =>
    (Except.map Value.floats (TimeSeriesAnalyzer.exponential_smoothing_body alpha self).1,
      (TimeSeriesAnalyzer.exponential_smoothing_body alpha self).2)
  | Call.detect_anomalies method threshold =>
    (Except.map Value.flags
        (TimeSeriesAnalyzer.detect_anomalies_body sqrt method threshold self).1,
      (TimeSeriesAnalyzer.detect_anomalies_body sqrt method threshold self).2)

/-- The object after a sequence of calls, made one after the other. -/
def TimeSeriesAnalyzer.calls {K : Type} [LinearOrderedField K] (sqrt : K → K)
    (self : TimeSeriesAnalyzer K) : List (Call K) → TimeSeriesAnalyzer K
  | [] => self
  | c :: cs => TimeSeriesAnalyzer.calls sqrt (self.call sqrt c).2 cs

/-- The floating-point operations that the `zscore` branch applies to values of
a type `F`.  Nothing is assumed about them: IEEE binary32 arithmetic with its
rounding and special values is one instance, exact arithmetic is another. -/
structure FloatOps (F : Type) where
  /-- The literal `0.0f`. -/
  zero : F
  /-- The conversion of a `size_t` to `float`. -/
  of_size : Nat → F
  add : F → F → F
  sub : F → F → F
  mul : F → F → F
  div : F → F → F
  /-- The function `std::sqrt`. -/
  sqrt : F → F
  /-- The function `std::abs`. -/
  abs : F → F
  /-- The comparison `>`. -/
  gt : F → F → Bool

/-- The loop of the `zscore` branch over any floating-point operations;
`todo` is `data.size() - i`. -/
def zscore_loop_ops {F : Type} (ops : FloatOps F) (data : List F) (mean std_dev threshold : F) :
    Nat → Nat → List Bool → Except Error (List Bool)
  | 0, _, anomalies => Except.ok anomalies
  | todo + 1, i, anomalies => do
    let x ← vec_get data i
    let anomalies ← vec_set anomalies i
      (ops.gt (ops.div (ops.abs (ops.sub x mean)) std_dev) threshold)
    zscore_loop_ops ops data mean std_dev threshold todo (i + 1) anomalies

/-- The `zscore` branch of `detect_anomalies` (the statements run when
`method == "zscore"`) over any floating-point operations. -/
def TimeSeriesAnalyzer.zscore_branch {F : Type} (ops : FloatOps F)
    (self : TimeSeriesAnalyzer F) (threshold : F) : Except Error (List Bool) :=
  let mean := ops.div (self.data.foldl ops.add ops.zero) (ops.of_size self.data.length)
  let sq_sum :=
    (List.zip self.data self.data).foldl (fun acc p => ops.add acc (ops.mul p.1 p.2)) ops.zero
  let std_dev :=
    ops.sqrt (ops.sub (ops.div sq_sum (ops.of_size self.data.length)) (ops.mul mean mean))
  let anomalies := List.replicate self.data.length false
  zscore_loop_ops ops self.data mean std_dev threshold self.data.length 0 anomalies

/-- The mean in the words of the spec, `(sum of s) / n`, with the operations
`ops` and the sum taken from the left. -/
def ops_mean {F : Type} (ops : FloatOps F) (s : List F) : F :=
  ops.div (s.foldl ops.add ops.zero) (ops.of_size s.length)

/-- The standard deviation in the words of the spec,
`sqrt ((sum of s[j]^2) / n - mean^2)`, with the operations `ops`. -/
def ops_std_dev {F : Type} (ops : FloatOps F) (s : List F) : F :=
  ops.sqrt (ops.sub
    (ops.div ((s.map (fun x => ops.mul x x)).foldl ops.add ops.zero) (ops.of_size s.length))
    (ops.mul (ops_mean ops s) (ops_mean ops s)))

/-- A value of IEEE 754 binary32.  The finite value `fin neg m e` is
`(-1)^neg * m * 2^e` units of `2^(-149)`, the smallest positive value; the
values that exist have `m < 2^24`, `e ≤ 253`, and `2^23 ≤ m` unless `e = 0`. -/
inductive F32 where
  | fin (neg : Bool) (m e : Nat)
  | inf (neg : Bool)
  | nan
  deriving DecidableEq, Repr

/-- The number of binary digits of `n`, found by halving at most `fuel` times;
`fuel = n` is always enough. -/
def bit_length_aux : Nat → Nat → Nat
  | 0, _ => 0
  | fuel + 1, n => if n = 0 then 0 else bit_length_aux fuel (n / 2) + 1

/-- The number of binary digits of `n`. -/
def bit_length (n : Nat) : Nat :=
  bit_length_aux n n

/-- The integer nearest to `num / den`, a tie going to the even one. -/
def round_div (num den : Nat) : Nat :=
  if 2 * (num % den) < den then num / den
  else if den < 2 * (num % den) then num / den + 1
  else if (num / den) % 2 = 0 then num / den
  else num / den + 1

/-- The binary32 value nearest to `num / den` units, with the sign `neg`, a tie
going to the even significand (the default rounding mode); too large a value
becomes an infinity. -/
def F32.round (neg : Bool) (num den : Nat) : F32 :=
  let e := bit_length (num / den) - 24
  let m := round_div num (den * 2 ^ e)
  if m = 2 ^ 24 then
    (if e + 1 > 253 then F32.inf neg else F32.fin neg (2 ^ 23) (e + 1))
  else if e > 253 then F32.inf neg
  else F32.fin neg m e

/-- The binary32 value nearest to the fraction `num / den`, as a decimal
literal such as `1.7f` denotes it. -/
def F32.of_ratio (num den : Nat) : F32 :=
  F32.round false (num * 2 ^ 149) den

/-- The value `-x`. -/
def F32.neg : F32 → F32
  | F32.fin s m e => F32.fin (!s) m e
  | F32.inf s => F32.inf (!s)
  | F32.nan => F32.nan

/-- The sum `x + y`. -/
def F32.add : F32 → F32 → F32
  | F32.nan, _ => F32.nan
  | _, F32.nan => F32.nan
  | F32.inf s1, F32.inf s2 => if s1 = s2 then F32.inf s1 else F32.nan
  | F32.inf s1, F32.fin _ _ _ => F32.inf s1
  | F32.fin _ _ _, F32.inf s2 => F32.inf s2
  | F32.fin s1 m1 e1, F32.fin s2 m2 e2 =>
    if s1 = s2 then F32.round s1 (m1 * 2 ^ e1 + m2 * 2 ^ e2) 1
    else if m2 * 2 ^ e2 < m1 * 2 ^ e1 then F32.round s1 (m1 * 2 ^ e1 - m2 * 2 ^ e2) 1
    else if m1 * 2 ^ e1 < m2 * 2 ^ e2 then F32.round s2 (m2 * 2 ^ e2 - m1 * 2 ^ e1) 1
    else F32.fin false 0 0

/-- The difference `x - y`. -/
def F32.sub (x y : F32) : F32 :=
  F32.add x (F32.neg y)

/-- The product `x * y`. -/
def F32.mul : F32 → F32 → F32
  | F32.nan, _ => F32.nan
  | _, F32.nan => F32.nan
  | F32.inf s1, F32.inf s2 => F32.inf (xor s1 s2)
  | F32.inf s1, F32.fin s2 m2 _ => if m2 = 0 then F32.nan else F32.inf (xor s1 s2)
  | F32.fin s1 m1 _, F32.inf s2 => if m1 = 0 then F32.nan else F32.inf (xor s1 s2)
  | F32.fin s1 m1 e1, F32.fin s2 m2 e2 =>
    F32.round (xor s1 s2) (m1 * 2 ^ e1 * (m2 * 2 ^ e2)) (2 ^ 149)

/-- The quotient `x / y`. -/
def F32.div : F32 → F32 → F32
  | F32.nan, _ => F32.nan
  | _, F32.nan => F32.nan
  | F32.inf _, F32.inf _ => F32.nan
  | F32.inf s1, F32.fin s2 _ _ => F32.inf (xor s1 s2)
  | F32.fin s1 _ _, F32.inf s2 => F32.fin (xor s1 s2) 0 0
  | F32.fin s1 m1 e1, F32.fin s2 m2 e2 =>
    if m2 = 0 then (if m1 = 0 then F32.nan else F32.inf (xor s1 s2))
    else F32.round (xor s1 s2) (m1 * 2 ^ e1 * 2 ^ 149) (m2 * 2 ^ e2)

/-- The correctly rounded square root. -/
def F32.sqrt : F32 → F32
  | F32.nan => F32.nan
  | F32.inf s => if s then F32.nan else F32.inf false
  | F32.fin s m e =>
    if m = 0 then F32.fin s 0 0
    else if s then F32.nan
    else if Nat.sqrt (m * 2 ^ e * 2 ^ 149) * Nat.sqrt (m * 2 ^ e * 2 ^ 149)
        = m * 2 ^ e * 2 ^ 149 then
      F32.round false (Nat.sqrt (m * 2 ^ e * 2 ^ 149)) 1
    else F32.round false (2 * Nat.sqrt (m * 2 ^ e * 2 ^ 149) + 1) 2

/-- The absolute value `|x|`. -/
def F32.abs : F32 → F32
  | F32.fin _ m e => F32.fin false m e
  | F32.inf _ => F32.inf false
  | F32.nan => F32.nan

/-- The comparison `x > y`; it is false when a side is `NaN`. -/
def F32.gt : F32 → F32 → Bool
  | F32.nan, _ => false
  | _, F32.nan => false
  | F32.inf s1, F32.inf s2 => !s1 && s2
  | F32.inf s1, F32.fin _ _ _ => !s1
  | F32.fin _ _ _, F32.inf s2 => s2
  | F32.fin false m1 e1, F32.fin false m2 e2 => decide (m2 * 2 ^ e2 < m1 * 2 ^ e1)
  | F32.fin false m1 _, F32.fin true m2 _ => decide (0 < m1 ∨ 0 < m2)
  | F32.fin true _ _, F32.fin false _ _ => false
  | F32.fin true m1 e1, F32.fin true m2 e2 => decide (m1 * 2 ^ e1 < m2 * 2 ^ e2)

/-- IEEE 754 binary32 arithmetic, rounding to nearest with ties to even. -/
def binary32 : FloatOps F32 where
  zero := F32.fin false 0 0
  of_size := fun n => F32.of_ratio n 1
  add := F32.add
  sub := F32.sub
  mul := F32.mul
  div := F32.div
  sqrt := F32.sqrt
  abs := F32.abs
  gt := F32.gt

/-- The value `-x` on `Fl`. -/
def Fl.neg {K : Type} [LinearOrderedField K] : Fl K → Fl K
  | Fl.fin x => Fl.fin (-x)
  | Fl.pinf => Fl.ninf
  | Fl.ninf => Fl.pinf
  | Fl.nan => Fl.nan

/-- The sum of two values of `Fl`: exact on numbers, IEEE on special values. -/
def Fl.add {K : Type} [LinearOrderedField K] : Fl K → Fl K → Fl K
  | Fl.nan, _ => Fl.nan
  | _, Fl.nan => Fl.nan
  | Fl.fin x, Fl.fin y => Fl.fin (x + y)
  | Fl.pinf, Fl.ninf => Fl.nan
  | Fl.ninf, Fl.pinf => Fl.nan
  | Fl.pinf, _ => Fl.pinf
  | _, Fl.pinf => Fl.pinf
  | Fl.ninf, _ => Fl.ninf
  | _, Fl.ninf => Fl.ninf

/-- The product of two values of `Fl`: exact on numbers, IEEE on special
values. -/
def Fl.mul {K : Type} [LinearOrderedField K] : Fl K → Fl K → Fl K
  | Fl.nan, _ => Fl.nan
  | _, Fl.nan => Fl.nan
  | Fl.fin x, Fl.fin y => Fl.fin (x * y)
  | Fl.fin x, Fl.pinf => if x = 0 then Fl.nan else if 0 < x then Fl.pinf else Fl.ninf
  | Fl.fin x, Fl.ninf => if x = 0 then Fl.nan else if 0 < x then Fl.ninf else Fl.pinf
  | Fl.pinf, Fl.fin y => if y = 0 then Fl.nan else if 0 < y then Fl.pinf else Fl.ninf
  | Fl.ninf, Fl.fin y => if y = 0 then Fl.nan else if 0 < y then Fl.ninf else Fl.pinf
  | Fl.pinf, Fl.pinf => Fl.pinf
  | Fl.ninf, Fl.ninf => Fl.pinf
  | Fl.pinf, Fl.ninf => Fl.ninf
  | Fl.ninf, Fl.pinf => Fl.ninf

/-- The quotient of two values of `Fl`: `fdiv` on a number, IEEE on special
values; exact arithmetic has one zero, taken as `+0`. -/
def Fl.div {K : Type} [LinearOrderedField K] : Fl K → Fl K → Fl K
  | Fl.fin x, y => fdiv x y
  | Fl.nan, _ => Fl.nan
  | _, Fl.nan => Fl.nan
  | Fl.pinf, Fl.fin y => if y < 0 then Fl.ninf else Fl.pinf
  | Fl.ninf, Fl.fin y => if y < 0 then Fl.pinf else Fl.ninf
  | Fl.pinf, Fl.pinf => Fl.nan
  | Fl.pinf, Fl.ninf => Fl.nan
  | Fl.ninf, Fl.pinf => Fl.nan
  | Fl.ninf, Fl.ninf => Fl.nan

/-- The square root on `Fl`: `fsqrt` on a number. -/
def Fl.sqrt {K : Type} [LinearOrderedField K] (sqrt : K → K) : Fl K → Fl K
  | Fl.fin x => fsqrt sqrt x
  | Fl.pinf => Fl.pinf
  | Fl.ninf => Fl.nan
  | Fl.nan => Fl.nan

/-- The absolute value on `Fl`. -/
def Fl.abs {K : Type} [LinearOrderedField K] : Fl K → Fl K
  | Fl.fin x => Fl.fin |x|
  | Fl.pinf => Fl.pinf
  | Fl.ninf => Fl.pinf
  | Fl.nan => Fl.nan

/-- The comparison `q > t` on `Fl`: `fgt` against a number. -/
def Fl.gt {K : Type} [LinearOrderedField K] : Fl K → Fl K → Bool
  | q, Fl.fin t => fgt q t
  | Fl.nan, _ => false
  | _, Fl.nan => false
  | Fl.pinf, Fl.ninf => true
  | Fl.fin _, Fl.ninf => true
  | _, _ => false

/-- Exact arithmetic as floating-point operations: no rounding, `sqrt` for
`std::sqrt`, and the IEEE special values. -/
def exact_ops {K : Type} [LinearOrderedField K] (sqrt : K → K) : FloatOps (Fl K) where
  zero := Fl.fin 0
  of_size := fun n => Fl.fin (n : K)
  add := Fl.add
  sub := fun x y => Fl.add x (Fl.neg y)
  mul := Fl.mul
  div := Fl.div
  sqrt := Fl.sqrt sqrt
  abs := Fl.abs
  gt := Fl.gt

/-- A square root on `ℚ` for running the model: exact on the squares of
rationals, rounded down on numerator and denominator otherwise. -/
def qsqrt (x : ℚ) : ℚ :=
  (Nat.sqrt x.num.toNat : ℚ) / (Nat.sqrt x.den : ℚ)

end TimeSeries


/-! ## Element access -/

namespace TimeSeries

theorem vec_get_of_lt {α : Type} (v : List α) (i : Nat) (h : i < v.length) :
    vec_get v i = Except.ok v[i] := by
  simp [vec_get, List.getElem?_eq_getElem h]

theorem vec_set_of_lt {α : Type} (v : List α) (i : Nat) (x : α) (h : i < v.length) :
    vec_set v i x = Except.ok (v.set i x) := by
  simp [vec_set, h]

theorem new_eq_ok {K : Type} (s : List K) (a : TimeSeriesAnalyzer K)
    (h : TimeSeriesAnalyzer.new s = Except.ok a) : s ≠ [] ∧ a.data = s := by
  unfold TimeSeriesAnalyzer.new at h
  cases s with
  | nil => simp at h
  | cons x xs =>
    simp at h
    subst h
    simp

theorem length_pos_of_new {K : Type} (s : List K) (a : TimeSeriesAnalyzer K)
    (h : TimeSeriesAnalyzer.new s = Except.ok a) : 0 < s.length :=
  List.length_pos.mpr (new_eq_ok s a h).1

end TimeSeries

/-! ## The sliding sum of `moving_average` -/

namespace TimeSeries

section MovingAverage

variable {K : Type} [LinearOrderedField K]

theorem accumulate_eq_sum (l : List K) :
    l.foldl (fun acc x => acc + x) 0 = l.sum := by
  rw [List.sum_eq_foldl]

/-- Dropping the first element of a list and adding the one after the window
shifts the window sum by one place. -/
theorem sum_take_tail (l : List K) (w : Nat) (h : w < l.length) :
    ((l.drop 1).take w).sum = (l.take w).sum + (l[w] - l[0]) := by
  have h1 := List.sum_take_succ l w h
  cases l with
  | nil => simp at h
  | cons x xs =>
    simp only [List.take_succ_cons, List.sum_cons] at h1
    simp only [List.drop_succ_cons, List.drop_zero, List.getElem_cons_zero]
    linear_combination h1

/-- The recurrence `sum_i = sum_{i-1} + s[i+w-1] - s[i-1]`, with `i = k + 1`. -/
theorem slice_sum_succ (s : List K) (k w : Nat) (h : k + w < s.length) :
    slice_sum s (k + 1) w
      = slice_sum s k w + (s[k + w] - s[k]) := by
  have hl : w < (s.drop k).length := by simp; omega
  have h2 := sum_take_tail (s.drop k) w hl
  simp only [List.drop_drop, List.getElem_drop, Nat.add_zero] at h2
  simpa [slice_sum] using h2

/-- The loop started at index `k + 1` with the sum of the window at `k` fills
positions `k + 1, ..., k + todo` with the window means and leaves the others. -/
theorem moving_average_loop_spec (s : List K) (w : Nat) :
    ∀ (todo k : Nat) (sum : K) (result : List K),
      k + w + todo ≤ s.length → k + todo < result.length → sum = slice_sum s k w →
      ∃ out, TimeSeriesAnalyzer.moving_average_loop s w todo (k + 1) sum result = Except.ok out ∧
        out.length = result.length ∧
        ∀ j, out[j]? =
          if k + 1 ≤ j ∧ j ≤ k + todo then some (slice_mean s j w) else result[j]? := by
  intro todo
  induction todo with
  | zero =>
    intro k sum result _ _ _
    refine ⟨result, rfl, rfl, fun j => ?_⟩
    have : ¬ (k + 1 ≤ j ∧ j ≤ k + 0) := by omega
    rw [if_neg this]
  | succ todo ih =>
    intro k sum result hs hr hsum
    have hx : vec_get s (k + 1 + w - 1) = Except.ok s[k + w] := by
      have e : k + 1 + w - 1 = k + w := by omega
      rw [e]
      exact vec_get_of_lt s (k + w) (by omega)
    have hy : vec_get s (k + 1 - 1) = Except.ok s[k] := by
      have e : k + 1 - 1 = k := by omega
      rw [e]
      exact vec_get_of_lt s k (by omega)
    have hset := vec_set_of_lt result (k + 1) ((sum + (s[k + w] - s[k])) / (w : K)) (by omega)
    have hnext : sum + (s[k + w] - s[k]) = slice_sum s (k + 1) w := by
      rw [slice_sum_succ s k w (by omega), hsum]
    obtain ⟨out, hout, hlen, hget⟩ :=
      ih (k + 1) (sum + (s[k + w] - s[k]))
        (result.set (k + 1) ((sum + (s[k + w] - s[k])) / (w : K)))
        (by omega) (by simp; omega) hnext
    refine ⟨out, ?_, by simpa using hlen, fun j => ?_⟩
    · rw [TimeSeriesAnalyzer.moving_average_loop, hx, hy]
      simp only [Except.bind, bind, pure, Except.pure]
      rw [hset]
      exact hout
    · rw [hget j, List.getElem?_set]
      by_cases hj : k + 1 = j
      · subst hj
        have h1 : ¬ (k + 1 + 1 ≤ k + 1 ∧ k + 1 ≤ k + 1 + todo) := by omega
        have h2 : k + 1 ≤ k + 1 ∧ k + 1 ≤ k + (todo + 1) := by omega
        have h3 : k + 1 < result.length := by omega
        simp only [h1, h2, h3, if_true, if_false, and_self]
        rw [hnext, slice_mean]
      · by_cases hj2 : k + 1 + 1 ≤ j ∧ j ≤ k + 1 + todo
        · have h2 : k + 1 ≤ j ∧ j ≤ k + (todo + 1) := by omega
          simp [hj2, h2]
        · have h2 : ¬ (k + 1 ≤ j ∧ j ≤ k + (todo + 1)) := by omega
          simp [hj2, h2, hj]

/-- For a valid window the method returns the list of the window means. -/
theorem moving_average_eq (a : TimeSeriesAnalyzer K) (w : Nat)
    (hw1 : 1 ≤ w) (hwn : w ≤ a.data.length) :
    a.moving_average w
      = Except.ok ((List.range (a.data.length - w + 1)).map (fun i => slice_mean a.data i w)) := by
  have h0 : ¬ (w ≤ 0) := by omega
  have h1 : ¬ (w > a.data.length) := by omega
  have hset := vec_set_of_lt (List.replicate (a.data.length - w + 1) (0 : K)) 0
    ((a.data.take w).foldl (fun acc x => acc + x) 0 / (w : K)) (by simp)
  obtain ⟨out, hout, hlen, hget⟩ :=
    moving_average_loop_spec a.data w (a.data.length - w) 0
      ((a.data.take w).foldl (fun acc x => acc + x) 0)
      ((List.replicate (a.data.length - w + 1) (0 : K)).set 0
        ((a.data.take w).foldl (fun acc x => acc + x) 0 / (w : K)))
      (by omega) (by simp) (by simp [slice_sum, accumulate_eq_sum])
  have hres : a.moving_average w = Except.ok out := by
    rw [TimeSeriesAnalyzer.moving_average, if_neg h0, if_neg h1]
    simp only [Except.bind, bind, pure, Except.pure]
    rw [hset]
    simpa using hout
  rw [hres]
  congr 1
  apply List.ext_getElem?
  intro j
  rw [hget j, List.getElem?_map]
  by_cases hj : 0 + 1 ≤ j ∧ j ≤ 0 + (a.data.length - w)
  · have hr : j < a.data.length - w + 1 := by omega
    rw [if_pos hj, List.getElem?_range hr]
    rfl
  · rw [if_neg hj, List.getElem?_set]
    by_cases hj0 : 0 = j
    · subst hj0
      simp [slice_mean, slice_sum, accumulate_eq_sum]
    · have hr : a.data.length - w + 1 ≤ j := by omega
      have hr2 : ¬ (j < a.data.length - w + 1) := by omega
      simp [hj0, List.getElem?_replicate, hr2, List.getElem?_eq_none, hr]

end MovingAverage

end TimeSeries

/-! ## `moving_average` -/

namespace TimeSeries

section MovingAverageClaims

variable {K : Type} [LinearOrderedField K]

/-- C1: for a series `s` accepted by the constructor and a window `w` with
`1 ≤ w ≤ n`, `moving_average w` returns the list whose element `i`, for
`0 ≤ i ≤ n - w`, is the arithmetic mean `(s[i] + ... + s[i + w - 1]) / w` of the
slice recomputed afresh: the sliding-sum recurrence of the code gives these
values in exact arithmetic. -/
theorem moving_average_is_slice_mean (s : List K) (a : TimeSeriesAnalyzer K) (w : Nat)
    (ha : TimeSeriesAnalyzer.new s = Except.ok a) (hw1 : 1 ≤ w) (hwn : w ≤ s.length) :
    a.moving_average w
      = Except.ok ((List.range (s.length - w + 1)).map
          (fun i => ((s.drop i).take w).sum / (w : K))) := by
  obtain ⟨_, hd⟩ := new_eq_ok s a ha
  rw [moving_average_eq a w hw1 (by rw [hd]; exact hwn), hd]
  rfl

/-- The scenario of C1: `[1, 2, 3, 4, 5]` with window `3` gives `[2, 3, 4]`. -/
theorem moving_average_is_slice_mean_witness :
    TimeSeriesAnalyzer.new [(1 : ℚ), 2, 3, 4, 5] = Except.ok { data := [1, 2, 3, 4, 5] } ∧
      1 ≤ 3 ∧ 3 ≤ [(1 : ℚ), 2, 3, 4, 5].length ∧
      TimeSeriesAnalyzer.moving_average { data := [(1 : ℚ), 2, 3, 4, 5] } 3
        = Except.ok [2, 3, 4] := by
  refine ⟨rfl, by decide, by decide, ?_⟩
  rw [moving_average_is_slice_mean [(1 : ℚ), 2, 3, 4, 5] { data := [1, 2, 3, 4, 5] } 3 rfl
    (by decide) (by decide)]
  norm_num [List.range_succ]

/-- C2: for a series `s` accepted by the constructor and a window `w` with
`1 ≤ w ≤ n`, `moving_average w` succeeds and its result has exactly
`n - w + 1` elements, hence exactly one when `w = n`. -/
theorem moving_average_length (s : List K) (a : TimeSeriesAnalyzer K) (w : Nat)
    (ha : TimeSeriesAnalyzer.new s = Except.ok a) (hw1 : 1 ≤ w) (hwn : w ≤ s.length) :
    ∃ out, a.moving_average w = Except.ok out ∧ out.length = s.length - w + 1 ∧
      (w = s.length → out.length = 1) := by
  obtain ⟨_, hd⟩ := new_eq_ok s a ha
  refine ⟨_, moving_average_eq a w hw1 (by rw [hd]; exact hwn), ?_, ?_⟩
  · simp [hd]
  · intro h
    simp [hd, h]

/-- The scenario of C2: a window as long as the series gives one element. -/
theorem moving_average_length_witness :
    ∃ out, TimeSeriesAnalyzer.moving_average { data := [(4 : ℚ), 8, 6] } 3 = Except.ok out ∧
      out.length = [(4 : ℚ), 8, 6].length - 3 + 1 ∧
      (3 = [(4 : ℚ), 8, 6].length → out.length = 1) :=
  moving_average_length [(4 : ℚ), 8, 6] { data := [4, 8, 6] } 3 rfl (by decide) (by decide)

/-- C3: for every analyzer and every window `w`, `moving_average w` fails with
`invalid_argument` exactly when `w = 0` or `w > n`, and it fails in no other
way; for `w = 0` the message is "Window size must be positive", for `w > n`
it is "Window size cannot exceed data length", and the two failures differ. -/
theorem moving_average_invalid_iff (a : TimeSeriesAnalyzer K) (w : Nat) :
    ((∃ msg, a.moving_average w = Except.error (Error.invalid_argument msg))
        ↔ (w = 0 ∨ w > a.data.length)) ∧
      (∀ e, a.moving_average w = Except.error e → ∃ msg, e = Error.invalid_argument msg) ∧
      (w = 0 → a.moving_average w
        = Except.error (Error.invalid_argument "Window size must be positive")) ∧
      (w > a.data.length → a.moving_average w
        = Except.error (Error.invalid_argument "Window size cannot exceed data length")) ∧
      (Error.invalid_argument "Window size must be positive"
        ≠ Error.invalid_argument "Window size cannot exceed data length") := by
  have hzero : w = 0 → a.moving_average w
      = Except.error (Error.invalid_argument "Window size must be positive") := by
    intro h
    simp [TimeSeriesAnalyzer.moving_average, h]
  have hbig : w > a.data.length → a.moving_average w
      = Except.error (Error.invalid_argument "Window size cannot exceed data length") := by
    intro h
    have h0 : ¬ (w ≤ 0) := by omega
    rw [TimeSeriesAnalyzer.moving_average, if_neg h0, if_pos h]
  have hok : ¬ (w = 0 ∨ w > a.data.length) → ∃ out, a.moving_average w = Except.ok out := by
    intro h
    exact ⟨_, moving_average_eq a w (by omega) (by omega)⟩
  refine ⟨⟨?_, ?_⟩, ?_, hzero, hbig, by decide⟩
  · rintro ⟨msg, hmsg⟩
    by_contra h
    obtain ⟨out, hout⟩ := hok h
    rw [hout] at hmsg
    cases hmsg
  · rintro (h | h)
    · exact ⟨_, hzero h⟩
    · exact ⟨_, hbig h⟩
  · intro e he
    by_cases h : w = 0 ∨ w > a.data.length
    · rcases h with h | h
      · rw [hzero h] at he
        cases he
        exact ⟨_, rfl⟩
      · rw [hbig h] at he
        cases he
        exact ⟨_, rfl⟩
    · obtain ⟨out, hout⟩ := hok h
      rw [hout] at he
      cases he

end MovingAverageClaims

end TimeSeries

/-! ## `exponential_smoothing` -/

namespace TimeSeries

section ExponentialSmoothing

variable {K : Type} [LinearOrderedField K]

/-- The loop started at index `k + 1` leaves positions `0, ..., k` and those
after `k + todo` as they are, and fills positions `k + 1, ..., k + todo`
according to the recurrence on the previous output. -/
theorem exponential_smoothing_loop_spec (s : List K) (alpha : K) :
    ∀ (todo k : Nat) (smoothed : List K),
      k + 1 + todo ≤ s.length → k + todo < smoothed.length →
      ∃ out, TimeSeriesAnalyzer.exponential_smoothing_loop s alpha todo (k + 1) smoothed
          = Except.ok out ∧
        out.length = smoothed.length ∧
        (∀ j, j ≤ k ∨ k + todo < j → out[j]? = smoothed[j]?) ∧
        (∀ j, k + 1 ≤ j → j ≤ k + todo → ∃ x p, s[j]? = some x ∧ out[j - 1]? = some p ∧
          out[j]? = some (alpha * x + (1 - alpha) * p)) := by
  intro todo
  induction todo with
  | zero =>
    intro k smoothed _ _
    exact ⟨smoothed, rfl, rfl, fun _ _ => rfl, fun j h1 h2 => by omega⟩
  | succ todo ih =>
    intro k smoothed hs hr
    have hx : vec_get s (k + 1) = Except.ok s[k + 1] := vec_get_of_lt s (k + 1) (by omega)
    have hp : vec_get smoothed (k + 1 - 1) = Except.ok smoothed[k] := by
      have e : k + 1 - 1 = k := by omega
      rw [e]
      exact vec_get_of_lt smoothed k (by omega)
    have hset := vec_set_of_lt smoothed (k + 1)
      (alpha * s[k + 1] + (1 - alpha) * smoothed[k]) (by omega)
    obtain ⟨out, hout, hlen, hkeep, hrec⟩ :=
      ih (k + 1) (smoothed.set (k + 1) (alpha * s[k + 1] + (1 - alpha) * smoothed[k]))
        (by omega) (by simp; omega)
    refine ⟨out, ?_, by simpa using hlen, fun j hj => ?_, fun j h1 h2 => ?_⟩
    · rw [TimeSeriesAnalyzer.exponential_smoothing_loop, hx, hp]
      simp only [Except.bind, bind, pure, Except.pure]
      rw [hset]
      exact hout
    · rw [hkeep j (by omega), List.getElem?_set]
      have hne : ¬ (k + 1 = j) := by omega
      rw [if_neg hne]
    · by_cases hj : j = k + 1
      · subst hj
        refine ⟨s[k + 1], smoothed[k], List.getElem?_eq_getElem (by omega), ?_, ?_⟩
        · rw [hkeep (k + 1 - 1) (by omega), List.getElem?_set]
          have hne : ¬ (k + 1 = k + 1 - 1) := by omega
          have e : k + 1 - 1 = k := by omega
          rw [if_neg hne, e]
          exact List.getElem?_eq_getElem (by omega)
        · rw [hkeep (k + 1) (by omega), List.getElem?_set]
          have hlt : k + 1 < smoothed.length := by omega
          simp [hlt]
      · exact hrec j (by omega) (by omega)

/-- For a non-empty series and an accepted `alpha` the method succeeds, its
output has the length of the series, starts with the first sample and follows
the recurrence. -/
theorem exponential_smoothing_spec (a : TimeSeriesAnalyzer K) (alpha : K)
    (hne : 0 < a.data.length) (h0 : 0 ≤ alpha) (h1 : alpha ≤ 1) :
    ∃ out, a.exponential_smoothing alpha = Except.ok out ∧
      out.length = a.data.length ∧
      out[0]? = a.data[0]? ∧
      (∀ t, 1 ≤ t → t < a.data.length → ∃ x p, a.data[t]? = some x ∧ out[t - 1]? = some p ∧
        out[t]? = some (alpha * x + (1 - alpha) * p)) := by
  have hguard : ¬ (alpha < 0 ∨ alpha > 1) := by
    rintro (h | h)
    · exact absurd h (not_lt.mpr h0)
    · exact absurd h (not_lt.mpr h1)
  have hx : vec_get a.data 0 = Except.ok a.data[0] := vec_get_of_lt a.data 0 hne
  have hset := vec_set_of_lt (List.replicate a.data.length (0 : K)) 0 a.data[0] (by simpa using hne)
  obtain ⟨out, hout, hlen, hkeep, hrec⟩ :=
    exponential_smoothing_loop_spec a.data alpha (a.data.length - 1) 0
      ((List.replicate a.data.length (0 : K)).set 0 a.data[0]) (by omega) (by simp; omega)
  refine ⟨out, ?_, by simpa using hlen, ?_, fun t ht1 htn => hrec t (by omega) (by omega)⟩
  · rw [TimeSeriesAnalyzer.exponential_smoothing, if_neg hguard, hx]
    simp only [Except.bind, bind, pure, Except.pure]
    rw [hset]
    exact hout
  · rw [hkeep 0 (by omega), List.getElem?_set]
    simp [hne]

end ExponentialSmoothing

end TimeSeries

namespace TimeSeries

section ExponentialSmoothingClaims

variable {K : Type} [LinearOrderedField K]

/-- C4: for a series `s` accepted by the constructor and `0 ≤ alpha ≤ 1`,
`exponential_smoothing alpha` returns a list `out` of the length of `s` with
`out[0] = s[0]` and `out[t] = alpha * s[t] + (1 - alpha) * out[t - 1]` for every
`1 ≤ t < n`: each value is computed from the previous output. -/
theorem exponential_smoothing_recurrence (s : List K) (a : TimeSeriesAnalyzer K) (alpha : K)
    (ha : TimeSeriesAnalyzer.new s = Except.ok a) (h0 : 0 ≤ alpha) (h1 : alpha ≤ 1) :
    ∃ out, a.exponential_smoothing alpha = Except.ok out ∧
      out.length = s.length ∧
      out[0]? = s[0]? ∧
      (∀ t, 1 ≤ t → t < s.length → ∃ x p, s[t]? = some x ∧ out[t - 1]? = some p ∧
        out[t]? = some (alpha * x + (1 - alpha) * p)) := by
  obtain ⟨hne, hd⟩ := new_eq_ok s a ha
  have hpos : 0 < a.data.length := by rw [hd]; exact List.length_pos.mpr hne
  have h := exponential_smoothing_spec a alpha hpos h0 h1
  rw [hd] at h
  exact h

/-- The scenario of C4: `[1, 2, 3]` with `alpha = 0.5` gives `[1, 1.5, 2.25]`. -/
theorem exponential_smoothing_recurrence_witness :
    (∃ out, TimeSeriesAnalyzer.exponential_smoothing { data := [(1 : ℚ), 2, 3] } (1 / 2)
        = Except.ok out ∧
      out.length = [(1 : ℚ), 2, 3].length ∧
      out[0]? = [(1 : ℚ), 2, 3][0]? ∧
      (∀ t, 1 ≤ t → t < [(1 : ℚ), 2, 3].length → ∃ x p, [(1 : ℚ), 2, 3][t]? = some x ∧
        out[t - 1]? = some p ∧ out[t]? = some (1 / 2 * x + (1 - 1 / 2) * p))) ∧
    TimeSeriesAnalyzer.exponential_smoothing { data := [(1 : ℚ), 2, 3] } (1 / 2)
      = Except.ok [1, 3 / 2, 9 / 4] := by
  refine ⟨exponential_smoothing_recurrence [(1 : ℚ), 2, 3] { data := [1, 2, 3] } (1 / 2) rfl
    (by norm_num) (by norm_num), ?_⟩
  norm_num [TimeSeriesAnalyzer.exponential_smoothing,
    TimeSeriesAnalyzer.exponential_smoothing_loop, vec_get, vec_set, bind, Except.bind,
    List.replicate]

/-- C5: for a series `s` accepted by the constructor, `exponential_smoothing 1`
returns `s` itself. -/
theorem exponential_smoothing_one (s : List K) (a : TimeSeriesAnalyzer K)
    (ha : TimeSeriesAnalyzer.new s = Except.ok a) :
    a.exponential_smoothing 1 = Except.ok s := by
  obtain ⟨hne, hd⟩ := new_eq_ok s a ha
  have hpos : 0 < a.data.length := by rw [hd]; exact List.length_pos.mpr hne
  obtain ⟨out, hout, hlen, hzero, hrec⟩ :=
    exponential_smoothing_spec a 1 hpos zero_le_one le_rfl
  rw [hd] at hlen hzero hrec
  rw [hout]
  congr 1
  apply List.ext_getElem?
  intro t
  by_cases ht : t < s.length
  · by_cases ht0 : t = 0
    · rw [ht0]
      exact hzero
    · obtain ⟨x, p, hx, _, ho⟩ := hrec t (by omega) ht
      rw [ho, hx]
      simp
  · rw [List.getElem?_eq_none (by omega), List.getElem?_eq_none (by omega)]

/-- An instance of C5 on `[5, -2, 7]`. -/
theorem exponential_smoothing_one_witness :
    TimeSeriesAnalyzer.exponential_smoothing { data := [(5 : ℚ), -2, 7] } 1
      = Except.ok [5, -2, 7] :=
  exponential_smoothing_one [(5 : ℚ), -2, 7] { data := [5, -2, 7] } rfl

/-- C6: for a series `s` of `n` samples accepted by the constructor,
`exponential_smoothing 0` returns the list of `n` copies of `s[0]`. -/
theorem exponential_smoothing_zero (s : List K) (a : TimeSeriesAnalyzer K)
    (ha : TimeSeriesAnalyzer.new s = Except.ok a) :
    ∃ x, s[0]? = some x ∧
      a.exponential_smoothing 0 = Except.ok (List.replicate s.length x) := by
  obtain ⟨hne, hd⟩ := new_eq_ok s a ha
  have hpos : 0 < s.length := List.length_pos.mpr hne
  obtain ⟨out, hout, hlen, hzero, hrec⟩ :=
    exponential_smoothing_spec a 0 (by rw [hd]; exact hpos) le_rfl zero_le_one
  rw [hd] at hlen hzero hrec
  refine ⟨s[0], List.getElem?_eq_getElem hpos, ?_⟩
  have hall : ∀ t, t < s.length → out[t]? = some s[0] := by
    intro t
    induction t with
    | zero =>
      intro _
      rw [hzero]
      exact List.getElem?_eq_getElem hpos
    | succ t ih =>
      intro ht
      obtain ⟨x, p, _, hp, ho⟩ := hrec (t + 1) (by omega) ht
      have e : t + 1 - 1 = t := by omega
      rw [e, ih (by omega)] at hp
      cases hp
      rw [ho]
      simp
  rw [hout]
  congr 1
  apply List.ext_getElem?
  intro t
  by_cases ht : t < s.length
  · rw [hall t ht, List.getElem?_replicate, if_pos ht]
  · rw [List.getElem?_eq_none (by omega), List.getElem?_replicate, if_neg ht]

/-- An instance of C6 on `[5, -2, 7]`. -/
theorem exponential_smoothing_zero_witness :
    ∃ x, [(5 : ℚ), -2, 7][0]? = some x ∧
      TimeSeriesAnalyzer.exponential_smoothing { data := [(5 : ℚ), -2, 7] } 0
        = Except.ok (List.replicate [(5 : ℚ), -2, 7].length x) :=
  exponential_smoothing_zero [(5 : ℚ), -2, 7] { data := [5, -2, 7] } rfl

/-- C7: for a series accepted by the constructor and every `alpha`,
`exponential_smoothing alpha` fails with `invalid_argument` exactly when
`alpha < 0` or `alpha > 1`, with the message "Alpha must be between 0 and 1",
and it fails in no other way; so `0` and `1` are accepted, and `-0.1` and `1.1`
are rejected. -/
theorem exponential_smoothing_invalid_iff (s : List K) (a : TimeSeriesAnalyzer K) (alpha : K)
    (ha : TimeSeriesAnalyzer.new s = Except.ok a) :
    ((∃ msg, a.exponential_smoothing alpha = Except.error (Error.invalid_argument msg))
        ↔ (alpha < 0 ∨ alpha > 1)) ∧
      (∀ e, a.exponential_smoothing alpha = Except.error e
        → e = Error.invalid_argument "Alpha must be between 0 and 1") ∧
      (∃ out, a.exponential_smoothing 0 = Except.ok out) ∧
      (∃ out, a.exponential_smoothing 1 = Except.ok out) ∧
      (∃ msg, a.exponential_smoothing (-(1 / 10)) = Except.error (Error.invalid_argument msg)) ∧
      (∃ msg, a.exponential_smoothing (11 / 10) = Except.error (Error.invalid_argument msg)) := by
  obtain ⟨hne, hd⟩ := new_eq_ok s a ha
  have hpos : 0 < a.data.length := by rw [hd]; exact List.length_pos.mpr hne
  have hbad : ∀ b : K, (b < 0 ∨ b > 1) → a.exponential_smoothing b
      = Except.error (Error.invalid_argument "Alpha must be between 0 and 1") := by
    intro b h
    rw [TimeSeriesAnalyzer.exponential_smoothing, if_pos h]
  have hgood : ∀ b : K, ¬ (b < 0 ∨ b > 1) → ∃ out, a.exponential_smoothing b = Except.ok out := by
    intro b h
    obtain ⟨out, hout, _⟩ := exponential_smoothing_spec a b hpos
      (not_lt.mp (fun hlt => h (Or.inl hlt))) (not_lt.mp (fun hgt => h (Or.inr hgt)))
    exact ⟨out, hout⟩
  refine ⟨⟨?_, fun h => ⟨_, hbad alpha h⟩⟩, ?_, ?_, ?_, ?_, ?_⟩
  · rintro ⟨msg, hmsg⟩
    by_contra h
    obtain ⟨out, hout⟩ := hgood alpha h
    rw [hout] at hmsg
    cases hmsg
  · intro e he
    by_cases h : alpha < 0 ∨ alpha > 1
    · rw [hbad alpha h] at he
      cases he
      rfl
    · obtain ⟨out, hout⟩ := hgood alpha h
      rw [hout] at he
      cases he
  · exact hgood 0 (by norm_num)
  · exact hgood 1 (by norm_num)
  · exact ⟨_, hbad _ (Or.inl (by norm_num))⟩
  · exact ⟨_, hbad _ (Or.inr (by norm_num))⟩

/-- An instance of C7 on `[5, -2, 7]` with `alpha = 3`. -/
theorem exponential_smoothing_invalid_iff_witness :
    ((∃ msg, TimeSeriesAnalyzer.exponential_smoothing { data := [(5 : ℚ), -2, 7] } 3
          = Except.error (Error.invalid_argument msg))
        ↔ ((3 : ℚ) < 0 ∨ (3 : ℚ) > 1)) ∧
      (∀ e, TimeSeriesAnalyzer.exponential_smoothing { data := [(5 : ℚ), -2, 7] } 3
          = Except.error e
        → e = Error.invalid_argument "Alpha must be between 0 and 1") ∧
      (∃ out, TimeSeriesAnalyzer.exponential_smoothing { data := [(5 : ℚ), -2, 7] } 0
        = Except.ok out) ∧
      (∃ out, TimeSeriesAnalyzer.exponential_smoothing { data := [(5 : ℚ), -2, 7] } 1
        = Except.ok out) ∧
      (∃ msg, TimeSeriesAnalyzer.exponential_smoothing { data := [(5 : ℚ), -2, 7] } (-(1 / 10))
        = Except.error (Error.invalid_argument msg)) ∧
      (∃ msg, TimeSeriesAnalyzer.exponential_smoothing { data := [(5 : ℚ), -2, 7] } (11 / 10)
        = Except.error (Error.invalid_argument msg)) :=
  exponential_smoothing_invalid_iff [(5 : ℚ), -2, 7] { data := [5, -2, 7] } 3 rfl

end ExponentialSmoothingClaims

end TimeSeries

/-! ## `detect_anomalies` -/

namespace TimeSeries

section DetectAnomalies

variable {K : Type} [LinearOrderedField K]

/-- The `zscore` loop started at index `i` overwrites positions
`i, ..., i + todo - 1` with the flags of the samples there. -/
theorem zscore_loop_spec (s : List K) (mean : K) (std_dev : Fl K) (threshold : K) :
    ∀ (todo i : Nat) (anomalies : List Bool),
      i + todo ≤ s.length → i + todo ≤ anomalies.length →
      ∃ out, TimeSeriesAnalyzer.zscore_loop s mean std_dev threshold todo i anomalies
          = Except.ok out ∧
        out.length = anomalies.length ∧
        ∀ j, out[j]? =
          if i ≤ j ∧ j < i + todo then
            (s[j]?).map (fun x => fgt (fdiv |x - mean| std_dev) threshold)
          else anomalies[j]? := by
  intro todo
  induction todo with
  | zero =>
    intro i anomalies _ _
    refine ⟨anomalies, rfl, rfl, fun j => ?_⟩
    have : ¬ (i ≤ j ∧ j < i + 0) := by omega
    rw [if_neg this]
  | succ todo ih =>
    intro i anomalies hs hr
    have hx : vec_get s i = Except.ok s[i] := vec_get_of_lt s i (by omega)
    have hset := vec_set_of_lt anomalies i (fgt (fdiv |s[i] - mean| std_dev) threshold)
      (by omega)
    obtain ⟨out, hout, hlen, hget⟩ :=
      ih (i + 1) (anomalies.set i (fgt (fdiv |s[i] - mean| std_dev) threshold))
        (by omega) (by simp; omega)
    refine ⟨out, ?_, by simpa using hlen, fun j => ?_⟩
    · rw [TimeSeriesAnalyzer.zscore_loop, hx]
      simp only [Except.bind, bind, pure, Except.pure]
      rw [hset]
      exact hout
    · rw [hget j, List.getElem?_set]
      by_cases hj : i = j
      · subst hj
        have h1 : ¬ (i + 1 ≤ i ∧ i < i + 1 + todo) := by omega
        have h2 : i ≤ i ∧ i < i + (todo + 1) := by omega
        have h3 : i < anomalies.length := by omega
        have h4 : s[i]? = some s[i] := List.getElem?_eq_getElem (by omega)
        rw [if_neg h1, if_pos h2, if_pos rfl, if_pos h3, h4]
        rfl
      · by_cases hj2 : i + 1 ≤ j ∧ j < i + 1 + todo
        · have h2 : i ≤ j ∧ j < i + (todo + 1) := by omega
          rw [if_pos hj2, if_pos h2]
        · have h2 : ¬ (i ≤ j ∧ j < i + (todo + 1)) := by omega
          rw [if_neg hj2, if_neg h2, if_neg hj]

/-- The whole `zscore` loop computes the flag of every sample, in place. -/
theorem zscore_loop_eq_map (s : List K) (mean : K) (std_dev : Fl K) (threshold : K) :
    TimeSeriesAnalyzer.zscore_loop s mean std_dev threshold s.length 0
        (List.replicate s.length false)
      = Except.ok (s.map (fun x => fgt (fdiv |x - mean| std_dev) threshold)) := by
  obtain ⟨out, hout, _, hget⟩ :=
    zscore_loop_spec s mean std_dev threshold s.length 0 (List.replicate s.length false)
      (by omega) (by simp)
  rw [hout]
  congr 1
  apply List.ext_getElem?
  intro j
  rw [hget j, List.getElem?_map]
  by_cases hj : j < s.length
  · have h : 0 ≤ j ∧ j < 0 + s.length := by omega
    rw [if_pos h]
  · have h : ¬ (0 ≤ j ∧ j < 0 + s.length) := by omega
    rw [if_neg h, List.getElem?_replicate, if_neg hj, List.getElem?_eq_none (by omega)]
    rfl

/-- The `iqr` loop started at index `i` overwrites positions
`i, ..., i + todo - 1` with the flags of the samples there. -/
theorem iqr_loop_spec (s : List K) (lower_bound upper_bound : K) :
    ∀ (todo i : Nat) (anomalies : List Bool),
      i + todo ≤ s.length → i + todo ≤ anomalies.length →
      ∃ out, TimeSeriesAnalyzer.iqr_loop s lower_bound upper_bound todo i anomalies
          = Except.ok out ∧
        out.length = anomalies.length ∧
        ∀ j, out[j]? =
          if i ≤ j ∧ j < i + todo then
            (s[j]?).map (fun x => decide (x < lower_bound) || decide (x > upper_bound))
          else anomalies[j]? := by
  intro todo
  induction todo with
  | zero =>
    intro i anomalies _ _
    refine ⟨anomalies, rfl, rfl, fun j => ?_⟩
    have : ¬ (i ≤ j ∧ j < i + 0) := by omega
    rw [if_neg this]
  | succ todo ih =>
    intro i anomalies hs hr
    have hx : vec_get s i = Except.ok s[i] := vec_get_of_lt s i (by omega)
    have hset := vec_set_of_lt anomalies i
      (decide (s[i] < lower_bound) || decide (s[i] > upper_bound)) (by omega)
    obtain ⟨out, hout, hlen, hget⟩ :=
      ih (i + 1) (anomalies.set i (decide (s[i] < lower_bound) || decide (s[i] > upper_bound)))
        (by omega) (by simp; omega)
    refine ⟨out, ?_, by simpa using hlen, fun j => ?_⟩
    · rw [TimeSeriesAnalyzer.iqr_loop, hx]
      simp only [Except.bind, bind, pure, Except.pure]
      rw [hset]
      exact hout
    · rw [hget j, List.getElem?_set]
      by_cases hj : i = j
      · subst hj
        have h1 : ¬ (i + 1 ≤ i ∧ i < i + 1 + todo) := by omega
        have h2 : i ≤ i ∧ i < i + (todo + 1) := by omega
        have h3 : i < anomalies.length := by omega
        have h4 : s[i]? = some s[i] := List.getElem?_eq_getElem (by omega)
        rw [if_neg h1, if_pos h2, if_pos rfl, if_pos h3, h4]
        rfl
      · by_cases hj2 : i + 1 ≤ j ∧ j < i + 1 + todo
        · have h2 : i ≤ j ∧ j < i + (todo + 1) := by omega
          rw [if_pos hj2, if_pos h2]
        · have h2 : ¬ (i ≤ j ∧ j < i + (todo + 1)) := by omega
          rw [if_neg hj2, if_neg h2, if_neg hj]

/-- The whole `iqr` loop computes the flag of every sample, in place. -/
theorem iqr_loop_eq_map (s : List K) (lower_bound upper_bound : K) :
    TimeSeriesAnalyzer.iqr_loop s lower_bound upper_bound s.length 0
        (List.replicate s.length false)
      = Except.ok (s.map (fun x => decide (x < lower_bound) || decide (x > upper_bound))) := by
  obtain ⟨out, hout, _, hget⟩ :=
    iqr_loop_spec s lower_bound upper_bound s.length 0 (List.replicate s.length false)
      (by omega) (by simp)
  rw [hout]
  congr 1
  apply List.ext_getElem?
  intro j
  rw [hget j, List.getElem?_map]
  by_cases hj : j < s.length
  · have h : 0 ≤ j ∧ j < 0 + s.length := by omega
    rw [if_pos h]
  · have h : ¬ (0 ≤ j ∧ j < 0 + s.length) := by omega
    rw [if_neg h, List.getElem?_replicate, if_neg hj, List.getElem?_eq_none (by omega)]
    rfl

/-- The call `std::inner_product(data, data, 0)` is the sum of the squares. -/
theorem inner_product_eq_sum (l : List K) :
    (List.zip l l).foldl (fun acc p => acc + p.1 * p.2) 0 = (l.map (fun x => x ^ 2)).sum := by
  have h : ∀ (l : List K) (acc : K),
      (List.zip l l).foldl (fun acc p => acc + p.1 * p.2) acc
        = acc + (l.map (fun x => x ^ 2)).sum := by
    intro l
    induction l with
    | nil => intro acc; simp
    | cons x xs ih =>
      intro acc
      simp only [List.zip_cons_cons, List.foldl_cons, List.map_cons, List.sum_cons]
      rw [ih]
      ring
  rw [h l 0, zero_add]

/-- The sum of the squared deviations from any `m`, expanded. -/
theorem sum_sq_dev (l : List K) (m : K) :
    (l.map (fun x => (x - m) ^ 2)).sum
      = (l.map (fun x => x ^ 2)).sum - 2 * m * l.sum + (l.length : K) * m ^ 2 := by
  induction l with
  | nil => simp
  | cons x xs ih =>
    simp only [List.map_cons, List.sum_cons, List.length_cons, Nat.cast_add, Nat.cast_one]
    rw [ih]
    ring

/-- The quantity under the square root is the population variance: the mean of
the squared deviations from the mean. -/
theorem spec_radicand_eq_variance (s : List K) (hne : 0 < s.length) :
    spec_radicand s = (s.map (fun x => (x - spec_mean s) ^ 2)).sum / (s.length : K) := by
  have hn : (s.length : K) ≠ 0 := by exact_mod_cast (Nat.pos_iff_ne_zero.mp hne)
  rw [sum_sq_dev, spec_radicand]
  have hm : s.sum = spec_mean s * (s.length : K) := by
    rw [spec_mean]
    field_simp
  rw [hm]
  field_simp
  ring

/-- A sum of squares is not negative. -/
theorem sum_sq_nonneg (l : List K) (m : K) : 0 ≤ (l.map (fun x => (x - m) ^ 2)).sum := by
  apply List.sum_nonneg
  intro y hy
  obtain ⟨x, _, rfl⟩ := List.mem_map.mp hy
  exact sq_nonneg _

/-- The quantity under the square root is not negative. -/
theorem spec_radicand_nonneg (s : List K) : 0 ≤ spec_radicand s := by
  by_cases hne : 0 < s.length
  · rw [spec_radicand_eq_variance s hne]
    exact div_nonneg (sum_sq_nonneg s _) (Nat.cast_nonneg _)
  · have : s = [] := List.length_eq_zero.mp (by omega)
    subst this
    simp [spec_radicand, spec_mean]

/-- The `zscore` branch in closed form: the flag of each sample is the IEEE
comparison of its z-score with the threshold. -/
theorem detect_anomalies_zscore_eq (sqrt : K → K) (a : TimeSeriesAnalyzer K) (threshold : K) :
    a.detect_anomalies sqrt "zscore" threshold
      = Except.ok (a.data.map (fun x =>
          fgt (fdiv |x - spec_mean a.data| (fsqrt sqrt (spec_radicand a.data))) threshold)) := by
  rw [TimeSeriesAnalyzer.detect_anomalies, if_pos rfl]
  simp only [accumulate_eq_sum, inner_product_eq_sum]
  rw [zscore_loop_eq_map]
  simp only [spec_mean, spec_radicand, pow_two]

/-- The quartile indices are inside a non-empty vector. -/
theorem quartile_index_lt (n : Nat) (h : 0 < n) : n / 4 < n ∧ 3 * n / 4 < n := by
  omega

/-- The `iqr` branch in closed form, on a non-empty series. -/
theorem detect_anomalies_iqr_eq (sqrt : K → K) (a : TimeSeriesAnalyzer K) (threshold : K)
    (hne : 0 < a.data.length) :
    ∃ Q1 Q3, (a.data.insertionSort (fun x y => x ≤ y))[a.data.length / 4]? = some Q1 ∧
      (a.data.insertionSort (fun x y => x ≤ y))[3 * a.data.length / 4]? = some Q3 ∧
      a.detect_anomalies sqrt "iqr" threshold
        = Except.ok (a.data.map (fun x =>
            decide (x < Q1 - threshold * (Q3 - Q1)) || decide (x > Q3 + threshold * (Q3 - Q1)))) := by
  have hlen : (a.data.insertionSort (fun x y => x ≤ y)).length = a.data.length :=
    List.length_insertionSort _ _
  obtain ⟨h1, h3⟩ := quartile_index_lt a.data.length hne
  have hq1 : a.data.length / 4 < (a.data.insertionSort (fun x y => x ≤ y)).length := by
    rw [hlen]; exact h1
  have hq3 : 3 * a.data.length / 4 < (a.data.insertionSort (fun x y => x ≤ y)).length := by
    rw [hlen]; exact h3
  refine ⟨_, _, List.getElem?_eq_getElem hq1, List.getElem?_eq_getElem hq3, ?_⟩
  have hne1 : ¬ ("iqr" = "zscore") := by decide
  rw [TimeSeriesAnalyzer.detect_anomalies, if_neg hne1, if_pos rfl]
  simp only [hlen]
  rw [vec_get_of_lt _ _ hq1, vec_get_of_lt _ _ hq3]
  simp only [Except.bind, bind, pure, Except.pure]
  rw [iqr_loop_eq_map]

/-- In an ascending list the element at a smaller index is not larger. -/
theorem sorted_index_le (l : List K) (h : l.Sorted (fun x y => x ≤ y)) (i j : Nat) (x y : K)
    (hij : i ≤ j) (hx : l[i]? = some x) (hy : l[j]? = some y) : x ≤ y := by
  obtain ⟨hi, rfl⟩ := List.getElem?_eq_some.mp hx
  obtain ⟨hj, rfl⟩ := List.getElem?_eq_some.mp hy
  rcases Nat.lt_or_eq_of_le hij with hlt | heq
  · exact List.pairwise_iff_getElem.mp h i j hi hj hlt
  · subst heq
    exact le_rfl

end DetectAnomalies

end TimeSeries

namespace TimeSeries

section DetectAnomaliesClaims

variable {K : Type} [LinearOrderedField K]

/-- C8: for a series `s` of `n` samples accepted by the constructor, every
method string `m` and every threshold, `detect_anomalies m threshold` returns a
list of exactly `n` booleans when `m` is "zscore" or "iqr", and fails with
`invalid_argument` for every other `m`, such as "bogus" and "invalid_method". -/
theorem detect_anomalies_length (sqrt : K → K) (s : List K) (a : TimeSeriesAnalyzer K)
    (m : String) (threshold : K) (ha : TimeSeriesAnalyzer.new s = Except.ok a) :
    ((m = "zscore" ∨ m = "iqr") →
        ∃ out, a.detect_anomalies sqrt m threshold = Except.ok out ∧ out.length = s.length) ∧
      (¬ (m = "zscore" ∨ m = "iqr") →
        a.detect_anomalies sqrt m threshold
          = Except.error (Error.invalid_argument "Invalid anomaly detection method")) ∧
      a.detect_anomalies sqrt "bogus" threshold
        = Except.error (Error.invalid_argument "Invalid anomaly detection method") ∧
      a.detect_anomalies sqrt "invalid_method" threshold
        = Except.error (Error.invalid_argument "Invalid anomaly detection method") := by
  obtain ⟨hne, hd⟩ := new_eq_ok s a ha
  have hpos : 0 < a.data.length := by rw [hd]; exact List.length_pos.mpr hne
  have hother : ∀ m' : String, ¬ (m' = "zscore" ∨ m' = "iqr") →
      a.detect_anomalies sqrt m' threshold
        = Except.error (Error.invalid_argument "Invalid anomaly detection method") := by
    intro m' h
    rw [TimeSeriesAnalyzer.detect_anomalies, if_neg (fun e => h (Or.inl e)),
      if_neg (fun e => h (Or.inr e))]
  refine ⟨?_, hother m, hother "bogus" (by decide), hother "invalid_method" (by decide)⟩
  rintro (h | h)
  · subst h
    refine ⟨_, detect_anomalies_zscore_eq sqrt a threshold, ?_⟩
    rw [List.length_map, hd]
  · subst h
    obtain ⟨Q1, Q3, _, _, hres⟩ := detect_anomalies_iqr_eq sqrt a threshold hpos
    refine ⟨_, hres, ?_⟩
    rw [List.length_map, hd]

/-- An instance of C8 on `[1, 2, 3, 4, 100]` with the method "iqr". -/
theorem detect_anomalies_length_witness :
    (("iqr" = "zscore" ∨ "iqr" = "iqr") →
        ∃ out, TimeSeriesAnalyzer.detect_anomalies qsqrt { data := [(1 : ℚ), 2, 3, 4, 100] }
            "iqr" (3 / 2) = Except.ok out ∧ out.length = [(1 : ℚ), 2, 3, 4, 100].length) ∧
      (¬ ("iqr" = "zscore" ∨ "iqr" = "iqr") →
        TimeSeriesAnalyzer.detect_anomalies qsqrt { data := [(1 : ℚ), 2, 3, 4, 100] }
            "iqr" (3 / 2)
          = Except.error (Error.invalid_argument "Invalid anomaly detection method")) ∧
      TimeSeriesAnalyzer.detect_anomalies qsqrt { data := [(1 : ℚ), 2, 3, 4, 100] }
          "bogus" (3 / 2)
        = Except.error (Error.invalid_argument "Invalid anomaly detection method") ∧
      TimeSeriesAnalyzer.detect_anomalies qsqrt { data := [(1 : ℚ), 2, 3, 4, 100] }
          "invalid_method" (3 / 2)
        = Except.error (Error.invalid_argument "Invalid anomaly detection method") :=
  detect_anomalies_length qsqrt [(1 : ℚ), 2, 3, 4, 100] { data := [1, 2, 3, 4, 100] }
    "iqr" (3 / 2) rfl

/-- C9, amended: for a series `s` of `n` samples accepted by the constructor and
every threshold, let `sorted` be the ascending-sorted copy of `s`,
`Q1 = sorted[n / 4]`, `Q3 = sorted[3 * n / 4]` and `IQR = Q3 - Q1`.  Then
`detect_anomalies "iqr"` returns `n` flags, and the flag at position `i` of the
original order is true exactly when `s[i] < Q1 - threshold * IQR` or
`s[i] > Q3 + threshold * IQR`.  A sample equal to a bound is not flagged when
the lower bound is at most the upper bound. -/
theorem detect_anomalies_iqr_flags (sqrt : K → K) (s : List K) (a : TimeSeriesAnalyzer K)
    (threshold : K) (sorted : List K) (ha : TimeSeriesAnalyzer.new s = Except.ok a)
    (hsorted : sorted.Sorted (fun x y => x ≤ y)) (hperm : sorted.Perm s) :
    ∃ Q1 Q3 out, sorted[s.length / 4]? = some Q1 ∧ sorted[3 * s.length / 4]? = some Q3 ∧
      a.detect_anomalies sqrt "iqr" threshold = Except.ok out ∧
      out.length = s.length ∧
      ∀ (i : Nat) (x : K), s[i]? = some x →
        out[i]? = some (decide
          (x < Q1 - threshold * (Q3 - Q1) ∨ x > Q3 + threshold * (Q3 - Q1))) ∧
        (Q1 - threshold * (Q3 - Q1) ≤ Q3 + threshold * (Q3 - Q1) →
          x = Q1 - threshold * (Q3 - Q1) ∨ x = Q3 + threshold * (Q3 - Q1) →
          out[i]? = some false) := by
  obtain ⟨hne, hd⟩ := new_eq_ok s a ha
  have hpos : 0 < a.data.length := by rw [hd]; exact List.length_pos.mpr hne
  have hsame : sorted = s.insertionSort (fun x y => x ≤ y) :=
    List.eq_of_perm_of_sorted (hperm.trans (List.perm_insertionSort _ s).symm) hsorted
      (List.sorted_insertionSort _ s)
  obtain ⟨Q1, Q3, h1, h3, hres⟩ := detect_anomalies_iqr_eq sqrt a threshold hpos
  rw [hd] at h1 h3 hres
  rw [← hsame] at h1 h3
  refine ⟨Q1, Q3, _, h1, h3, hres, by rw [List.length_map], fun i x hx => ?_⟩
  have hflag : (s.map (fun x =>
      decide (x < Q1 - threshold * (Q3 - Q1)) || decide (x > Q3 + threshold * (Q3 - Q1))))[i]?
      = some (decide (x < Q1 - threshold * (Q3 - Q1) ∨ x > Q3 + threshold * (Q3 - Q1))) := by
    rw [List.getElem?_map, hx, Option.map_some', Bool.decide_or]
  refine ⟨hflag, fun hle hb => ?_⟩
  rw [hflag]
  have hnot : ¬ (x < Q1 - threshold * (Q3 - Q1) ∨ x > Q3 + threshold * (Q3 - Q1)) := by
    rintro (h | h) <;> rcases hb with hb | hb <;> rw [hb] at h <;> linarith
  rw [decide_eq_false hnot]

/-- An instance of the amended C9 on `[7, 1, 9, 3, 5]` with threshold `0.5`:
`Q1 = 3`, `Q3 = 7`, the bounds are `1` and `9`, and the samples `1` and `9`,
which lie on the bounds, are not flagged. -/
theorem detect_anomalies_iqr_flags_witness :
    (∃ Q1 Q3 out, [(1 : ℚ), 3, 5, 7, 9][[(7 : ℚ), 1, 9, 3, 5].length / 4]? = some Q1 ∧
      [(1 : ℚ), 3, 5, 7, 9][3 * [(7 : ℚ), 1, 9, 3, 5].length / 4]? = some Q3 ∧
      TimeSeriesAnalyzer.detect_anomalies qsqrt { data := [(7 : ℚ), 1, 9, 3, 5] } "iqr" (1 / 2)
        = Except.ok out ∧
      out.length = [(7 : ℚ), 1, 9, 3, 5].length ∧
      ∀ (i : Nat) (x : ℚ), [(7 : ℚ), 1, 9, 3, 5][i]? = some x →
        out[i]? = some (decide
          (x < Q1 - 1 / 2 * (Q3 - Q1) ∨ x > Q3 + 1 / 2 * (Q3 - Q1))) ∧
        (Q1 - 1 / 2 * (Q3 - Q1) ≤ Q3 + 1 / 2 * (Q3 - Q1) →
          x = Q1 - 1 / 2 * (Q3 - Q1) ∨ x = Q3 + 1 / 2 * (Q3 - Q1) →
          out[i]? = some false)) ∧
    TimeSeriesAnalyzer.detect_anomalies qsqrt { data := [(7 : ℚ), 1, 9, 3, 5] } "iqr" (1 / 2)
      = Except.ok [false, false, false, false, false] := by
  have hsort : List.insertionSort (fun x y => x ≤ y) [(7 : ℚ), 1, 9, 3, 5]
      = [1, 3, 5, 7, 9] := by
    norm_num [List.insertionSort, List.orderedInsert]
  refine ⟨detect_anomalies_iqr_flags qsqrt [(7 : ℚ), 1, 9, 3, 5] { data := [7, 1, 9, 3, 5] }
    (1 / 2) [1, 3, 5, 7, 9] rfl (by norm_num [List.Sorted])
    (by rw [← hsort]; exact List.perm_insertionSort _ _), ?_⟩
  have hne1 : ¬ ("iqr" = "zscore") := by decide
  rw [TimeSeriesAnalyzer.detect_anomalies, if_neg hne1, if_pos rfl]
  simp only [hsort]
  norm_num [TimeSeriesAnalyzer.iqr_loop, vec_get, vec_set, bind, Except.bind, List.replicate]

/-- C9 as stated fails: on `[1, 2, 3, 4, 100]` with threshold `-1` the quartiles
are `Q1 = 2` and `Q3 = 4`, the lower bound is `2 - (-1) * (4 - 2) = 4` and the
upper bound `4 + (-1) * (4 - 2) = 2`; the sample `4` at index `3` equals the
lower bound, and it is flagged, because it is above the upper bound. -/
theorem detect_anomalies_iqr_bound_flagged :
    List.insertionSort (fun x y => x ≤ y) [(1 : ℚ), 2, 3, 4, 100] = [1, 2, 3, 4, 100] ∧
      [(1 : ℚ), 2, 3, 4, 100][[(1 : ℚ), 2, 3, 4, 100].length / 4]? = some 2 ∧
      [(1 : ℚ), 2, 3, 4, 100][3 * [(1 : ℚ), 2, 3, 4, 100].length / 4]? = some 4 ∧
      [(1 : ℚ), 2, 3, 4, 100][3]? = some ((2 : ℚ) - (-1) * (4 - 2)) ∧
      TimeSeriesAnalyzer.detect_anomalies qsqrt { data := [(1 : ℚ), 2, 3, 4, 100] } "iqr" (-1)
        = Except.ok [true, true, true, true, true] := by
  refine ⟨by norm_num [List.insertionSort, List.orderedInsert], by norm_num, by norm_num,
    by norm_num, ?_⟩
  have hne1 : ¬ ("iqr" = "zscore") := by decide
  rw [TimeSeriesAnalyzer.detect_anomalies, if_neg hne1, if_pos rfl]
  norm_num [TimeSeriesAnalyzer.iqr_loop, vec_get, vec_set, bind, Except.bind,
    List.insertionSort, List.orderedInsert, List.replicate]

end DetectAnomaliesClaims

end TimeSeries

/-! ## The `zscore` branch over any floating-point arithmetic -/

namespace TimeSeries

section ZScoreBranch

variable {F : Type}

/-- The call `std::inner_product(data, data, 0)` adds up the products `x * x`
from the left. -/
theorem inner_product_ops (ops : FloatOps F) (l : List F) :
    ∀ z : F, (List.zip l l).foldl (fun acc p => ops.add acc (ops.mul p.1 p.2)) z
      = (l.map (fun x => ops.mul x x)).foldl ops.add z := by
  induction l with
  | nil => intro z; rfl
  | cons x xs ih =>
    intro z
    simp only [List.zip_cons_cons, List.foldl_cons, List.map_cons]
    exact ih _

/-- The loop started at index `i` overwrites positions `i, ..., i + todo - 1`
with the flags of the samples there. -/
theorem zscore_loop_ops_spec (ops : FloatOps F) (s : List F) (mean std_dev threshold : F) :
    ∀ (todo i : Nat) (anomalies : List Bool),
      i + todo ≤ s.length → i + todo ≤ anomalies.length →
      ∃ out, zscore_loop_ops ops s mean std_dev threshold todo i anomalies = Except.ok out ∧
        out.length = anomalies.length ∧
        ∀ j, out[j]? =
          if i ≤ j ∧ j < i + todo then
            (s[j]?).map (fun x => ops.gt (ops.div (ops.abs (ops.sub x mean)) std_dev) threshold)
          else anomalies[j]? := by
  intro todo
  induction todo with
  | zero =>
    intro i anomalies _ _
    refine ⟨anomalies, rfl, rfl, fun j => ?_⟩
    have : ¬ (i ≤ j ∧ j < i + 0) := by omega
    rw [if_neg this]
  | succ todo ih =>
    intro i anomalies hs hr
    have hx : vec_get s i = Except.ok s[i] := vec_get_of_lt s i (by omega)
    have hset := vec_set_of_lt anomalies i
      (ops.gt (ops.div (ops.abs (ops.sub s[i] mean)) std_dev) threshold) (by omega)
    obtain ⟨out, hout, hlen, hget⟩ :=
      ih (i + 1)
        (anomalies.set i (ops.gt (ops.div (ops.abs (ops.sub s[i] mean)) std_dev) threshold))
        (by omega) (by simp; omega)
    refine ⟨out, ?_, by simpa using hlen, fun j => ?_⟩
    · rw [zscore_loop_ops, hx]
      simp only [Except.bind, bind, pure, Except.pure]
      rw [hset]
      exact hout
    · rw [hget j, List.getElem?_set]
      by_cases hj : i = j
      · subst hj
        have h1 : ¬ (i + 1 ≤ i ∧ i < i + 1 + todo) := by omega
        have h2 : i ≤ i ∧ i < i + (todo + 1) := by omega
        have h3 : i < anomalies.length := by omega
        have h4 : s[i]? = some s[i] := List.getElem?_eq_getElem (by omega)
        rw [if_neg h1, if_pos h2, if_pos rfl, if_pos h3, h4]
        rfl
      · by_cases hj2 : i + 1 ≤ j ∧ j < i + 1 + todo
        · have h2 : i ≤ j ∧ j < i + (todo + 1) := by omega
          rw [if_pos hj2, if_pos h2]
        · have h2 : ¬ (i ≤ j ∧ j < i + (todo + 1)) := by omega
          rw [if_neg hj2, if_neg h2, if_neg hj]

/-- The whole loop computes the flag of every sample, in place. -/
theorem zscore_loop_ops_eq_map (ops : FloatOps F) (s : List F) (mean std_dev threshold : F) :
    zscore_loop_ops ops s mean std_dev threshold s.length 0 (List.replicate s.length false)
      = Except.ok (s.map (fun x =>
          ops.gt (ops.div (ops.abs (ops.sub x mean)) std_dev) threshold)) := by
  obtain ⟨out, hout, _, hget⟩ :=
    zscore_loop_ops_spec ops s mean std_dev threshold s.length 0
      (List.replicate s.length false) (by omega) (by simp)
  rw [hout]
  congr 1
  apply List.ext_getElem?
  intro j
  rw [hget j, List.getElem?_map]
  by_cases hj : j < s.length
  · have h : 0 ≤ j ∧ j < 0 + s.length := by omega
    rw [if_pos h]
  · have h : ¬ (0 ≤ j ∧ j < 0 + s.length) := by omega
    rw [if_neg h, List.getElem?_replicate, if_neg hj, List.getElem?_eq_none (by omega)]
    rfl

/-- The branch in closed form: the flag of each sample compares its z-score,
computed with the operations `ops`, with the threshold. -/
theorem zscore_branch_eq_map (ops : FloatOps F) (a : TimeSeriesAnalyzer F) (threshold : F) :
    a.zscore_branch ops threshold
      = Except.ok (a.data.map (fun x =>
          ops.gt (ops.div (ops.abs (ops.sub x (ops_mean ops a.data))) (ops_std_dev ops a.data))
            threshold)) := by
  rw [TimeSeriesAnalyzer.zscore_branch]
  simp only [inner_product_ops]
  rw [zscore_loop_ops_eq_map]
  rfl

/-- C10: with any floating-point operations, binary32 ones included, on an
analyzer with stored series `s` of `n` samples and for every threshold, the
`zscore` branch of `detect_anomalies` returns `n` flags, and the flag at
position `i` is the comparison `|s[i] - mean| / std_dev > threshold`, where
`mean = (sum of s) / n` and `std_dev = sqrt ((sum of s[j]^2) / n - mean^2)`, all
computed with those operations, the sums from the left. -/
theorem detect_anomalies_zscore_flags (ops : FloatOps F) (a : TimeSeriesAnalyzer F)
    (threshold : F) :
    ∃ out, a.zscore_branch ops threshold = Except.ok out ∧
      out.length = a.data.length ∧
      ∀ (i : Nat) (x : F), a.data[i]? = some x →
        out[i]? = some (ops.gt
          (ops.div (ops.abs (ops.sub x (ops_mean ops a.data))) (ops_std_dev ops a.data))
          threshold) := by
  refine ⟨_, zscore_branch_eq_map ops a threshold, by rw [List.length_map], fun i x hx => ?_⟩
  rw [List.getElem?_map, hx, Option.map_some']

end ZScoreBranch

section Binary32Runs

set_option maxRecDepth 100000

/-- Values of the binary32 model at known bit patterns: `1.0f` is `2^23` units
of `2^(-23)`, `0.1f` is `0x3DCCCCCD`, the smallest subnormal is one unit, a
tie goes to the even significand (`16777217` to `16777216`, `16777219` to
`16777220`), the largest value is `(2^24 - 1) * 2^104`, `2^128` overflows, and
`x - x` is `+0`. -/
theorem binary32_values :
    F32.of_ratio 1 1 = F32.fin false 8388608 126 ∧
      F32.of_ratio 1 10 = F32.fin false 13421773 122 ∧
      F32.of_ratio 1 (2 ^ 149) = F32.fin false 1 0 ∧
      binary32.of_size 16777217 = F32.fin false 8388608 150 ∧
      binary32.of_size 16777219 = F32.fin false 8388610 150 ∧
      binary32.of_size ((2 ^ 24 - 1) * 2 ^ 104) = F32.fin false 16777215 253 ∧
      binary32.of_size (2 ^ 128) = F32.inf false ∧
      binary32.sub (F32.of_ratio 1 1) (F32.of_ratio 1 1) = F32.fin false 0 0 :=
  ⟨by decide, by decide, by decide, by decide, by decide, by decide, by decide, by decide⟩

/-- The square root of the binary32 model on an exact and on an inexact case:
`sqrt 4 = 2`, and `sqrt 2 = 0x3FB504F3`. -/
theorem binary32_sqrt_values :
    binary32.sqrt (binary32.of_size 4) = binary32.of_size 2 ∧
      binary32.sqrt (binary32.of_size 2) = F32.fin false 11863283 126 := by
  have h4 : binary32.of_size 4 = F32.fin false 8388608 128 := by decide
  have h2 : binary32.of_size 2 = F32.fin false 8388608 127 := by decide
  have hs4 : Nat.sqrt (8388608 * 2 ^ 128 * 2 ^ 149) = 2 ^ 150 := by
    have e : 8388608 * 2 ^ 128 * 2 ^ 149 = 2 ^ 150 * 2 ^ 150 := by norm_num
    rw [e, Nat.sqrt_eq]
  have hs2 : Nat.sqrt (8388608 * 2 ^ 127 * 2 ^ 149)
      = 1009216521945237994791381332037992686769626072 :=
    (Nat.eq_sqrt.mpr ⟨by decide, by decide⟩).symm
  constructor
  · rw [h4]
    show F32.sqrt (F32.fin false 8388608 128) = F32.fin false 8388608 127
    simp only [F32.sqrt, hs4]
    decide
  · rw [h2]
    show F32.sqrt (F32.fin false 8388608 127) = F32.fin false 11863283 126
    simp only [F32.sqrt, hs2]
    decide

/-- An instance of C10 in binary32: on twenty samples `10000` and one `10001`
with threshold `3` the mean is `10000.048`, the number under the root is `-8`,
`std_dev` is `NaN`, and no sample is flagged. -/
theorem detect_anomalies_zscore_flags_witness :
    ops_mean binary32 (List.replicate 20 (binary32.of_size 10000) ++ [binary32.of_size 10001])
        = F32.fin false 10240049 139 ∧
      binary32.sub
          (binary32.div
            ((List.map (fun x => binary32.mul x x)
              (List.replicate 20 (binary32.of_size 10000) ++ [binary32.of_size 10001])).foldl
                binary32.add binary32.zero)
            (binary32.of_size 21))
          (binary32.mul (F32.fin false 10240049 139) (F32.fin false 10240049 139))
        = F32.fin true 8388608 129 ∧
      ops_std_dev binary32
          (List.replicate 20 (binary32.of_size 10000) ++ [binary32.of_size 10001])
        = F32.nan ∧
      TimeSeriesAnalyzer.zscore_branch binary32
          { data := List.replicate 20 (binary32.of_size 10000) ++ [binary32.of_size 10001] }
          (binary32.of_size 3)
        = Except.ok (List.replicate 21 false) ∧
      ∃ out, TimeSeriesAnalyzer.zscore_branch binary32
          { data := List.replicate 20 (binary32.of_size 10000) ++ [binary32.of_size 10001] }
          (binary32.of_size 3) = Except.ok out ∧
        out.length = (List.replicate 20 (binary32.of_size 10000)
          ++ [binary32.of_size 10001]).length ∧
        ∀ (i : Nat) (x : F32),
          (List.replicate 20 (binary32.of_size 10000) ++ [binary32.of_size 10001])[i]? = some x →
          out[i]? = some (binary32.gt
            (binary32.div
              (binary32.abs (binary32.sub x (ops_mean binary32
                (List.replicate 20 (binary32.of_size 10000) ++ [binary32.of_size 10001]))))
              (ops_std_dev binary32
                (List.replicate 20 (binary32.of_size 10000) ++ [binary32.of_size 10001])))
            (binary32.of_size 3)) :=
  ⟨by decide, by decide, by decide, by rfl,
    detect_anomalies_zscore_flags binary32
      { data := List.replicate 20 (binary32.of_size 10000) ++ [binary32.of_size 10001] }
      (binary32.of_size 3)⟩

/-- C16 as stated fails in binary32.  On seven samples `1.7f` the mean is the
value next below the sample, the number under the root is `0` and so is
`std_dev`, but the numerator `|s[i] - mean|` is `2^(-23)`, not `0`; the z-score
is `+inf`, not `0 / 0`, and every sample is flagged.  On six samples `0.3f`
the number under the root is `2^(-26)` and `std_dev` is `2^(-13)`, not `0`. -/
theorem zscore_constant_series_rounded :
    F32.of_ratio 17 10 = F32.fin false 14260634 126 ∧
      ops_mean binary32 (List.replicate 7 (F32.of_ratio 17 10))
        = F32.fin false 14260633 126 ∧
      ops_std_dev binary32 (List.replicate 7 (F32.of_ratio 17 10)) = F32.fin false 0 0 ∧
      binary32.abs (binary32.sub (F32.of_ratio 17 10)
          (ops_mean binary32 (List.replicate 7 (F32.of_ratio 17 10))))
        = F32.fin false 8388608 103 ∧
      binary32.div (F32.fin false 8388608 103) (F32.fin false 0 0) = F32.inf false ∧
      TimeSeriesAnalyzer.zscore_branch binary32
          { data := List.replicate 7 (F32.of_ratio 17 10) } (binary32.of_size 3)
        = Except.ok (List.replicate 7 true) ∧
      ops_std_dev binary32 (List.replicate 6 (F32.of_ratio 3 10))
        = F32.fin false 8388608 113 := by
  refine ⟨by decide, by decide, by decide, by decide, by decide, by rfl, ?_⟩
  have hrad : binary32.sub
      (binary32.div
        ((List.map (fun x => binary32.mul x x) (List.replicate 6 (F32.of_ratio 3 10))).foldl
          binary32.add binary32.zero)
        (binary32.of_size (List.replicate 6 (F32.of_ratio 3 10)).length))
      (binary32.mul (ops_mean binary32 (List.replicate 6 (F32.of_ratio 3 10)))
        (ops_mean binary32 (List.replicate 6 (F32.of_ratio 3 10))))
      = F32.fin false 8388608 100 := by decide
  have hs : Nat.sqrt (8388608 * 2 ^ 100 * 2 ^ 149) = 2 ^ 136 := by
    have e : 8388608 * 2 ^ 100 * 2 ^ 149 = 2 ^ 136 * 2 ^ 136 := by norm_num
    rw [e, Nat.sqrt_eq]
  rw [ops_std_dev, hrad]
  show F32.sqrt (F32.fin false 8388608 100) = F32.fin false 8388608 113
  simp only [F32.sqrt, hs]
  decide

end Binary32Runs

end TimeSeries

/-! ## Exact arithmetic as an instance of the floating-point operations -/

namespace TimeSeries

section ExactOps

variable {K : Type} [LinearOrderedField K]

/-- A left sum of numbers with the exact operations is the number that is
their sum. -/
theorem foldl_add_fin (l : List K) :
    ∀ z : K, (l.map Fl.fin).foldl Fl.add (Fl.fin z) = Fl.fin (l.foldl (fun acc x => acc + x) z) := by
  induction l with
  | nil => intro z; rfl
  | cons x xs ih =>
    intro z
    simp only [List.map_cons, List.foldl_cons]
    exact ih (z + x)

/-- The mean of a non-empty series of numbers with the exact operations is the
mean of the spec. -/
theorem ops_mean_exact (sqrt : K → K) (data : List K) (hne : data ≠ []) :
    ops_mean (exact_ops sqrt) (data.map Fl.fin) = Fl.fin (spec_mean data) := by
  have hn : (data.length : K) ≠ 0 := by
    exact_mod_cast (Nat.pos_iff_ne_zero.mp (List.length_pos.mpr hne))
  show Fl.div ((data.map Fl.fin).foldl Fl.add (Fl.fin 0)) (Fl.fin ((data.map Fl.fin).length : K))
    = Fl.fin (spec_mean data)
  rw [foldl_add_fin, List.length_map, accumulate_eq_sum, Fl.div, fdiv, if_neg hn, spec_mean]

/-- The standard deviation of a non-empty series of numbers with the exact
operations is the IEEE square root of the radicand of the spec. -/
theorem ops_std_dev_exact (sqrt : K → K) (data : List K) (hne : data ≠ []) :
    ops_std_dev (exact_ops sqrt) (data.map Fl.fin) = fsqrt sqrt (spec_radicand data) := by
  have hn : (data.length : K) ≠ 0 := by
    exact_mod_cast (Nat.pos_iff_ne_zero.mp (List.length_pos.mpr hne))
  have hsq : (data.map Fl.fin).map (fun x => (exact_ops sqrt).mul x x)
      = (data.map (fun x => x ^ 2)).map Fl.fin := by
    rw [List.map_map, List.map_map]
    apply List.map_congr_left
    intro x _
    show Fl.mul (Fl.fin x) (Fl.fin x) = Fl.fin (x ^ 2)
    rw [Fl.mul, pow_two]
  rw [ops_std_dev, ops_mean_exact sqrt data hne, hsq]
  show Fl.sqrt sqrt (Fl.add
      (Fl.div (((data.map (fun x => x ^ 2)).map Fl.fin).foldl Fl.add (Fl.fin 0))
        (Fl.fin ((data.map Fl.fin).length : K)))
      (Fl.neg (Fl.mul (Fl.fin (spec_mean data)) (Fl.fin (spec_mean data)))))
    = fsqrt sqrt (spec_radicand data)
  rw [foldl_add_fin, List.length_map, accumulate_eq_sum, Fl.div, fdiv,
    if_neg hn, Fl.mul, Fl.neg, Fl.add, Fl.sqrt, spec_radicand]
  congr 1
  ring

/-- The `zscore` branch of the exact model is the branch over floating-point
operations, run with the exact ones. -/
theorem detect_anomalies_zscore_eq_branch (sqrt : K → K) (data : List K) (threshold : K) :
    TimeSeriesAnalyzer.detect_anomalies sqrt { data := data } "zscore" threshold
      = TimeSeriesAnalyzer.zscore_branch (exact_ops sqrt) { data := data.map Fl.fin }
          (Fl.fin threshold) := by
  rw [detect_anomalies_zscore_eq, zscore_branch_eq_map]
  congr 1
  by_cases hne : data = []
  · subst hne
    rfl
  · rw [List.map_map]
    apply List.map_congr_left
    intro x _
    show fgt (fdiv |x - spec_mean data| (fsqrt sqrt (spec_radicand data))) threshold
      = Fl.gt (Fl.div (Fl.abs (Fl.add (Fl.fin x)
          (Fl.neg (ops_mean (exact_ops sqrt) (data.map Fl.fin)))))
          (ops_std_dev (exact_ops sqrt) (data.map Fl.fin))) (Fl.fin threshold)
    rw [ops_mean_exact sqrt data hne, ops_std_dev_exact sqrt data hne, Fl.neg, Fl.add, Fl.abs,
      Fl.div, Fl.gt, sub_eq_add_neg]

end ExactOps

end TimeSeries

/-! ## The method bodies as statements on the object -/

namespace TimeSeries

/-- A read of `data` hands the stored samples to the rest of the body. -/
theorem Member.read_data_bind {K β : Type} (f : List K → Member K β)
    (self : TimeSeriesAnalyzer K) :
    (Member.read_data >>= f) self = f self.data self := rfl

/-- A step on locals followed by a rest that returns the object as it got it
returns the object as it got it. -/
theorem Member.on_locals_bind {K α β : Type} (r : Except Error α) (f : α → Member K β)
    (g : α → Except Error β) (self : TimeSeriesAnalyzer K)
    (h : ∀ x, f x self = (g x, self)) :
    (Member.on_locals r >>= f) self = (r >>= g, self) := by
  cases r with
  | error e => rfl
  | ok x => exact h x

/-- The constructor's body writes its argument into the object, unless the
argument is empty; `new` is that body run on the object under construction. -/
theorem new_body_eq {K : Type} (data : List K) (self : TimeSeriesAnalyzer K) :
    TimeSeriesAnalyzer.new_body data self
      = if data.isEmpty then
          (Except.error (Error.invalid_argument "Input data cannot be empty"), self)
        else (Except.ok (), { data := data }) := by
  rw [TimeSeriesAnalyzer.new_body]
  by_cases h : data.isEmpty
  · rw [if_pos h, if_pos h]
    rfl
  · rw [if_neg h, if_neg h]
    rfl

/-- The constructor `new` is its body run on the object under construction,
whose `data` is still empty. -/
theorem new_eq_new_body {K : Type} (data : List K) :
    TimeSeriesAnalyzer.new data
      = match TimeSeriesAnalyzer.new_body data { data := [] } with
        | (Except.ok _, obj) => Except.ok obj
        | (Except.error e, _) => Except.error e := by
  rw [new_body_eq, TimeSeriesAnalyzer.new]
  by_cases h : data.isEmpty
  · rw [if_pos h, if_pos h]
  · rw [if_neg h, if_neg h]

section BodyLemmas

variable {K : Type} [LinearOrderedField K]

/-- The loop of `moving_average`, run on an object, computes what the loop
computes from the stored samples and leaves the object as it was. -/
theorem moving_average_loop_body_eq (window : Nat) :
    ∀ (todo i : Nat) (sum : K) (result : List K) (self : TimeSeriesAnalyzer K),
      TimeSeriesAnalyzer.moving_average_loop_body window todo i sum result self
        = (TimeSeriesAnalyzer.moving_average_loop self.data window todo i sum result, self) := by
  intro todo
  induction todo with
  | zero => intro i sum result self; rfl
  | succ todo ih =>
    intro i sum result self
    rw [TimeSeriesAnalyzer.moving_average_loop_body, TimeSeriesAnalyzer.moving_average_loop,
      Member.read_data_bind]
    refine Member.on_locals_bind _ _ _ _ (fun x => ?_)
    rw [Member.read_data_bind]
    refine Member.on_locals_bind _ _ _ _ (fun y => ?_)
    refine Member.on_locals_bind _ _ _ _ (fun result' => ?_)
    exact ih (i + 1) (sum + (x - y)) result' self

/-- The body of `moving_average`, run on an object, returns what the method
returns on the stored samples and leaves the object as it was. -/
theorem moving_average_body_eq (window : Nat) (self : TimeSeriesAnalyzer K) :
    TimeSeriesAnalyzer.moving_average_body window self
      = (self.moving_average window, self) := by
  rw [TimeSeriesAnalyzer.moving_average_body, TimeSeriesAnalyzer.moving_average]
  by_cases h0 : window ≤ 0
  · rw [if_pos h0, if_pos h0]
    rfl
  · rw [if_neg h0, if_neg h0, Member.read_data_bind]
    by_cases h1 : window > self.data.length
    · rw [if_pos h1, if_pos h1]
      rfl
    · rw [if_neg h1, if_neg h1, Member.read_data_bind, Member.read_data_bind]
      refine Member.on_locals_bind _ _ _ _ (fun result => ?_)
      exact moving_average_loop_body_eq window _ 1 _ result self

/-- The loop of `exponential_smoothing`, run on an object, computes what the
loop computes from the stored samples and leaves the object as it was. -/
theorem exponential_smoothing_loop_body_eq (alpha : K) :
    ∀ (todo t : Nat) (smoothed : List K) (self : TimeSeriesAnalyzer K),
      TimeSeriesAnalyzer.exponential_smoothing_loop_body alpha todo t smoothed self
        = (TimeSeriesAnalyzer.exponential_smoothing_loop self.data alpha todo t smoothed,
            self) := by
  intro todo
  induction todo with
  | zero => intro t smoothed self; rfl
  | succ todo ih =>
    intro t smoothed self
    rw [TimeSeriesAnalyzer.exponential_smoothing_loop_body,
      TimeSeriesAnalyzer.exponential_smoothing_loop, Member.read_data_bind]
    refine Member.on_locals_bind _ _ _ _ (fun x => ?_)
    refine Member.on_locals_bind _ _ _ _ (fun prev => ?_)
    refine Member.on_locals_bind _ _ _ _ (fun smoothed' => ?_)
    exact ih (t + 1) smoothed' self

/-- The body of `exponential_smoothing`, run on an object, returns what the
method returns on the stored samples and leaves the object as it was. -/
theorem exponential_smoothing_body_eq (alpha : K) (self : TimeSeriesAnalyzer K) :
    TimeSeriesAnalyzer.exponential_smoothing_body alpha self
      = (self.exponential_smoothing alpha, self) := by
  rw [TimeSeriesAnalyzer.exponential_smoothing_body, TimeSeriesAnalyzer.exponential_smoothing]
  by_cases hg : alpha < 0 ∨ alpha > 1
  · rw [if_pos hg, if_pos hg]
    rfl
  · rw [if_neg hg, if_neg hg, Member.read_data_bind, Member.read_data_bind]
    refine Member.on_locals_bind _ _ _ _ (fun x => ?_)
    refine Member.on_locals_bind _ _ _ _ (fun smoothed => ?_)
    rw [Member.read_data_bind]
    exact exponential_smoothing_loop_body_eq alpha _ 1 smoothed self

/-- The loop of the `zscore` branch, run on an object, computes what the loop
computes from the stored samples and leaves the object as it was. -/
theorem zscore_loop_body_eq (mean : K) (std_dev : Fl K) (threshold : K) :
    ∀ (todo i : Nat) (anomalies : List Bool) (self : TimeSeriesAnalyzer K),
      TimeSeriesAnalyzer.zscore_loop_body mean std_dev threshold todo i anomalies self
        = (TimeSeriesAnalyzer.zscore_loop self.data mean std_dev threshold todo i anomalies,
            self) := by
  intro todo
  induction todo with
  | zero => intro i anomalies self; rfl
  | succ todo ih =>
    intro i anomalies self
    rw [TimeSeriesAnalyzer.zscore_loop_body, TimeSeriesAnalyzer.zscore_loop,
      Member.read_data_bind]
    refine Member.on_locals_bind _ _ _ _ (fun x => ?_)
    refine Member.on_locals_bind _ _ _ _ (fun anomalies' => ?_)
    exact ih (i + 1) anomalies' self

/-- The loop of the `iqr` branch, run on an object, computes what the loop
computes from the stored samples and leaves the object as it was. -/
theorem iqr_loop_body_eq (lower_bound upper_bound : K) :
    ∀ (todo i : Nat) (anomalies : List Bool) (self : TimeSeriesAnalyzer K),
      TimeSeriesAnalyzer.iqr_loop_body lower_bound upper_bound todo i anomalies self
        = (TimeSeriesAnalyzer.iqr_loop self.data lower_bound upper_bound todo i anomalies,
            self) := by
  intro todo
  induction todo with
  | zero => intro i anomalies self; rfl
  | succ todo ih =>
    intro i anomalies self
    rw [TimeSeriesAnalyzer.iqr_loop_body, TimeSeriesAnalyzer.iqr_loop, Member.read_data_bind]
    refine Member.on_locals_bind _ _ _ _ (fun x => ?_)
    refine Member.on_locals_bind _ _ _ _ (fun anomalies' => ?_)
    exact ih (i + 1) anomalies' self

/-- The body of `detect_anomalies`, run on an object, returns what the method
returns on the stored samples and leaves the object as it was. -/
theorem detect_anomalies_body_eq (sqrt : K → K) (method : String) (threshold : K)
    (self : TimeSeriesAnalyzer K) :
    TimeSeriesAnalyzer.detect_anomalies_body sqrt method threshold self
      = (self.detect_anomalies sqrt method threshold, self) := by
  rw [TimeSeriesAnalyzer.detect_anomalies_body, TimeSeriesAnalyzer.detect_anomalies]
  by_cases hz : method = "zscore"
  · rw [if_pos hz, if_pos hz]
    simp only [Member.read_data_bind]
    exact zscore_loop_body_eq _ _ threshold _ 0 _ self
  · rw [if_neg hz, if_neg hz]
    by_cases hi : method = "iqr"
    · rw [if_pos hi, if_pos hi, Member.read_data_bind]
      refine Member.on_locals_bind _ _ _ _ (fun Q1 => ?_)
      refine Member.on_locals_bind _ _ _ _ (fun Q3 => ?_)
      simp only [Member.read_data_bind]
      exact iqr_loop_body_eq _ _ _ 0 _ self
    · rw [if_neg hi, if_neg hi]
      rfl

end BodyLemmas

end TimeSeries

/-! ## Construction and the stored series -/

namespace TimeSeries

/-- C11: the constructor fails with `invalid_argument` exactly when the input
sequence is empty, and it fails in no other way; on every non-empty input it
succeeds, and `get_data` of the new object is the input, with the same length
and the same element at every index. -/
theorem new_fails_iff_empty {K : Type} (s : List K) :
    ((∃ msg, TimeSeriesAnalyzer.new s = Except.error (Error.invalid_argument msg)) ↔ s = []) ∧
      (∀ e, TimeSeriesAnalyzer.new s = Except.error e →
        e = Error.invalid_argument "Input data cannot be empty") ∧
      (s ≠ [] → ∃ a, TimeSeriesAnalyzer.new s = Except.ok a ∧ a.get_data = s ∧
        a.get_data.length = s.length ∧ ∀ i : Nat, a.get_data[i]? = s[i]?) := by
  cases s with
  | nil =>
    refine ⟨⟨fun _ => rfl, fun _ => ⟨_, rfl⟩⟩, ?_, fun h => absurd rfl h⟩
    intro e he
    cases he
    rfl
  | cons x xs =>
    refine ⟨⟨?_, fun h => by cases h⟩, ?_, fun _ => ⟨{ data := x :: xs }, rfl, rfl, rfl,
      fun _ => rfl⟩⟩
    · rintro ⟨msg, hmsg⟩
      cases hmsg
    · intro e he
      cases he

section Construction

variable {K : Type} [LinearOrderedField K]

/-- What a call returns and the object it leaves, for each method. -/
theorem call_eq (sqrt : K → K) (a : TimeSeriesAnalyzer K) :
    (∀ window, a.call sqrt (Call.moving_average window)
      = (Except.map Value.floats (a.moving_average window), a)) ∧
    (∀ alpha, a.call sqrt (Call.exponential_smoothing alpha)
      = (Except.map Value.floats (a.exponential_smoothing alpha), a)) ∧
    (∀ method threshold, a.call sqrt (Call.detect_anomalies method threshold)
      = (Except.map Value.flags (a.detect_anomalies sqrt method threshold), a)) := by
  refine ⟨fun window => ?_, fun alpha => ?_, fun method threshold => ?_⟩
  · rw [TimeSeriesAnalyzer.call, moving_average_body_eq]
  · rw [TimeSeriesAnalyzer.call, exponential_smoothing_body_eq]
  · rw [TimeSeriesAnalyzer.call, detect_anomalies_body_eq]

/-- No call changes the object. -/
theorem call_state (sqrt : K → K) (a : TimeSeriesAnalyzer K) (c : Call K) :
    (a.call sqrt c).2 = a := by
  cases c with
  | moving_average window => rw [(call_eq sqrt a).1 window]
  | exponential_smoothing alpha => rw [(call_eq sqrt a).2.1 alpha]
  | detect_anomalies method threshold => rw [(call_eq sqrt a).2.2 method threshold]

/-- No sequence of calls changes the object. -/
theorem calls_state (sqrt : K → K) (cs : List (Call K)) :
    ∀ a : TimeSeriesAnalyzer K, TimeSeriesAnalyzer.calls sqrt a cs = a := by
  induction cs with
  | nil => intro a; rfl
  | cons c cs ih =>
    intro a
    rw [TimeSeriesAnalyzer.calls, call_state, ih]

/-- C12: a call of `moving_average`, `exponential_smoothing` or
`detect_anomalies`, with any arguments and whether it succeeds or fails,
returns what the method returns and leaves `get_data` as it was, in the same
order; so after any sequence of calls on an object built from `s`, `get_data`
is still `s` and is not empty. -/
theorem call_preserves_data (sqrt : K → K) (a : TimeSeriesAnalyzer K) :
    (∀ window, (a.call sqrt (Call.moving_average window)).1
        = Except.map Value.floats (a.moving_average window) ∧
      (a.call sqrt (Call.moving_average window)).2.get_data = a.get_data) ∧
    (∀ alpha, (a.call sqrt (Call.exponential_smoothing alpha)).1
        = Except.map Value.floats (a.exponential_smoothing alpha) ∧
      (a.call sqrt (Call.exponential_smoothing alpha)).2.get_data = a.get_data) ∧
    (∀ method threshold, (a.call sqrt (Call.detect_anomalies method threshold)).1
        = Except.map Value.flags (a.detect_anomalies sqrt method threshold) ∧
      (a.call sqrt (Call.detect_anomalies method threshold)).2.get_data = a.get_data) ∧
    (∀ (s : List K) (cs : List (Call K)), TimeSeriesAnalyzer.new s = Except.ok a →
      (TimeSeriesAnalyzer.calls sqrt a cs).get_data = s ∧
      (TimeSeriesAnalyzer.calls sqrt a cs).get_data ≠ []) := by
  obtain ⟨hm, he, hd⟩ := call_eq sqrt a
  refine ⟨fun w => by rw [hm w]; exact ⟨rfl, rfl⟩, fun alpha => by rw [he alpha]; exact ⟨rfl, rfl⟩,
    fun m t => by rw [hd m t]; exact ⟨rfl, rfl⟩, fun s cs ha => ?_⟩
  obtain ⟨hne, hd⟩ := new_eq_ok s a ha
  rw [calls_state sqrt cs a, TimeSeriesAnalyzer.get_data, hd]
  exact ⟨rfl, hne⟩

/-- An instance of C12: after an `iqr` call, which sorts, and a failing call on
the unsorted series `[100, 3, 1, 4, 2]`, `get_data` is still that series. -/
theorem call_preserves_data_witness :
    (TimeSeriesAnalyzer.calls qsqrt { data := [(100 : ℚ), 3, 1, 4, 2] }
        [Call.detect_anomalies "iqr" (3 / 2), Call.moving_average 0]).get_data
      = [100, 3, 1, 4, 2] ∧
    (TimeSeriesAnalyzer.calls qsqrt { data := [(100 : ℚ), 3, 1, 4, 2] }
        [Call.detect_anomalies "iqr" (3 / 2), Call.moving_average 0]).get_data ≠ [] :=
  (call_preserves_data qsqrt { data := [(100 : ℚ), 3, 1, 4, 2] }).2.2.2
    [100, 3, 1, 4, 2] [Call.detect_anomalies "iqr" (3 / 2), Call.moving_average 0] rfl

end Construction

end TimeSeries

/-! ## The two scenarios of `detect_anomalies` -/

namespace TimeSeries

section Scenarios

variable {K : Type} [LinearOrderedField K]

/-- A square-root function takes the square of a non-negative number back to it. -/
theorem IsSqrt.sqrt_mul_self {sqrt : K → K} (h : IsSqrt sqrt) (r : K) (hr : 0 ≤ r) :
    sqrt (r * r) = r := by
  obtain ⟨h0, h1⟩ := h (r * r) (mul_self_nonneg r)
  exact (mul_self_inj h0 hr).mp h1

/-- The square root of the real numbers is a square-root function. -/
theorem isSqrt_real : IsSqrt Real.sqrt :=
  fun x hx => ⟨Real.sqrt_nonneg x, Real.mul_self_sqrt hx⟩

/-- C13: on the series `[1, 1, 1, 1, 100]`, with `std::sqrt` the square root,
the mean is `20.8`, the quantity under the root is `1568.16`, `std_dev` is
`39.6`, and `detect_anomalies "zscore" 1` returns
`[false, false, false, false, true]`. -/
theorem detect_anomalies_zscore_scenario (sqrt : K → K) (hsqrt : IsSqrt sqrt) :
    zscore_mean [(1 : K), 1, 1, 1, 100] = 104 / 5 ∧
      zscore_radicand [(1 : K), 1, 1, 1, 100] = 39204 / 25 ∧
      fsqrt sqrt (zscore_radicand [(1 : K), 1, 1, 1, 100]) = Fl.fin (198 / 5) ∧
      TimeSeriesAnalyzer.detect_anomalies sqrt { data := [(1 : K), 1, 1, 1, 100] } "zscore" 1
        = Except.ok [false, false, false, false, true] := by
  have hmean : zscore_mean [(1 : K), 1, 1, 1, 100] = 104 / 5 := by
    norm_num [zscore_mean]
  have hrad : zscore_radicand [(1 : K), 1, 1, 1, 100] = 39204 / 25 := by
    rw [zscore_radicand, hmean]
    norm_num
  have hroot : sqrt (39204 / 25 : K) = 198 / 5 := by
    have e : (39204 / 25 : K) = 198 / 5 * (198 / 5) := by norm_num
    rw [e]
    exact hsqrt.sqrt_mul_self (198 / 5) (by norm_num)
  have hsd : fsqrt sqrt (39204 / 25 : K) = Fl.fin (198 / 5) := by
    rw [fsqrt, if_neg (by norm_num), hroot]
  refine ⟨hmean, hrad, by rw [hrad, hsd], ?_⟩
  have hm : spec_mean [(1 : K), 1, 1, 1, 100] = 104 / 5 := by
    norm_num [spec_mean]
  have hr : spec_radicand [(1 : K), 1, 1, 1, 100] = 39204 / 25 := by
    rw [spec_radicand, hm]
    norm_num
  rw [detect_anomalies_zscore_eq, hm, hr, hsd]
  have h1 : fgt (fdiv |(1 : K) - 104 / 5| (Fl.fin (198 / 5))) 1 = false := by
    have e : |(1 : K) - 104 / 5| = 99 / 5 := by
      rw [abs_of_nonpos (by norm_num)]
      norm_num
    rw [e, fdiv, if_neg (by norm_num), fgt]
    norm_num
  have h100 : fgt (fdiv |(100 : K) - 104 / 5| (Fl.fin (198 / 5))) 1 = true := by
    have e : |(100 : K) - 104 / 5| = 396 / 5 := by
      rw [abs_of_nonneg (by norm_num)]
      norm_num
    rw [e, fdiv, if_neg (by norm_num), fgt]
    norm_num
  simp only [List.map_cons, List.map_nil, h1, h100]

/-- The scenario of C13 over the real numbers, with the real square root. -/
theorem detect_anomalies_zscore_scenario_witness :
    IsSqrt Real.sqrt ∧
      TimeSeriesAnalyzer.detect_anomalies Real.sqrt { data := [(1 : ℝ), 1, 1, 1, 100] } "zscore" 1
        = Except.ok [false, false, false, false, true] :=
  ⟨isSqrt_real, (detect_anomalies_zscore_scenario Real.sqrt isSqrt_real).2.2.2⟩

/-- C14: on the series `[1, 2, 3, 4, 100]` the sorted copy is the series itself,
`Q1 = sorted[1] = 2`, `Q3 = sorted[3] = 4`, the bounds for threshold `1.5` are
`-1` and `7`, and `detect_anomalies "iqr" 1.5` returns
`[false, false, false, false, true]`: only `100` is flagged. -/
theorem detect_anomalies_iqr_scenario (sqrt : K → K) :
    List.insertionSort (fun x y => x ≤ y) [(1 : K), 2, 3, 4, 100] = [1, 2, 3, 4, 100] ∧
      [(1 : K), 2, 3, 4, 100].length / 4 = 1 ∧
      3 * [(1 : K), 2, 3, 4, 100].length / 4 = 3 ∧
      [(1 : K), 2, 3, 4, 100][1]? = some 2 ∧
      [(1 : K), 2, 3, 4, 100][3]? = some 4 ∧
      (2 : K) - 3 / 2 * (4 - 2) = -1 ∧
      (4 : K) + 3 / 2 * (4 - 2) = 7 ∧
      TimeSeriesAnalyzer.detect_anomalies sqrt { data := [(1 : K), 2, 3, 4, 100] } "iqr" (3 / 2)
        = Except.ok [false, false, false, false, true] := by
  have hsort : List.insertionSort (fun x y => x ≤ y) [(1 : K), 2, 3, 4, 100]
      = [1, 2, 3, 4, 100] := by
    norm_num [List.insertionSort, List.orderedInsert]
  refine ⟨hsort, by simp, by simp, rfl, rfl, by norm_num, by norm_num, ?_⟩
  have hne1 : ¬ ("iqr" = "zscore") := by decide
  rw [TimeSeriesAnalyzer.detect_anomalies, if_neg hne1, if_pos rfl]
  simp only [hsort]
  norm_num [TimeSeriesAnalyzer.iqr_loop, vec_get, vec_set, bind, Except.bind, List.replicate]

end Scenarios

end TimeSeries

/-! ## The standard deviation of the `zscore` branch -/

namespace TimeSeries

section StandardDeviation

variable {K : Type} [LinearOrderedField K]

/-- The mean of the `zscore` branch is the mean of the spec. -/
theorem zscore_mean_eq (s : List K) : zscore_mean s = spec_mean s := by
  rw [zscore_mean, accumulate_eq_sum, spec_mean]

/-- The argument of the square root is the radicand of the spec. -/
theorem zscore_radicand_eq (s : List K) : zscore_radicand s = spec_radicand s := by
  rw [zscore_radicand, zscore_mean_eq, inner_product_eq_sum, spec_radicand, pow_two]

/-- The `zscore` branch runs its loop with `zscore_mean` and with the square
root of `zscore_radicand`. -/
theorem detect_anomalies_zscore_unfold (sqrt : K → K) (a : TimeSeriesAnalyzer K)
    (threshold : K) :
    a.detect_anomalies sqrt "zscore" threshold
      = TimeSeriesAnalyzer.zscore_loop a.data (zscore_mean a.data)
          (fsqrt sqrt (zscore_radicand a.data)) threshold a.data.length 0
          (List.replicate a.data.length false) := by
  rw [TimeSeriesAnalyzer.detect_anomalies, if_pos rfl]
  rfl

/-- The radicand of the spec is the population variance of the spec. -/
theorem spec_radicand_eq_population_variance (s : List K) (hne : 0 < s.length) :
    spec_radicand s = population_variance s := by
  rw [spec_radicand_eq_variance s hne, population_variance]
  ring

/-- C15: for a series `s` of `n` samples accepted by the constructor, the
`zscore` branch takes the square root of `sq_sum / n - mean * mean`; this number
is `(sum of s[j]^2) / n - mean^2` with `mean = (sum of s) / n`, it equals the
population variance `(1 / n) * sum of (s[j] - mean)^2` (division by `n`), and it
is not negative.  So `std_dev` is the square root of the population variance:
for a square-root function, the non-negative number whose square is it. -/
theorem zscore_radicand_is_population_variance (sqrt : K → K) (s : List K)
    (a : TimeSeriesAnalyzer K) (threshold : K) (ha : TimeSeriesAnalyzer.new s = Except.ok a) :
    a.detect_anomalies sqrt "zscore" threshold
        = TimeSeriesAnalyzer.zscore_loop s (zscore_mean s) (fsqrt sqrt (zscore_radicand s))
            threshold s.length 0 (List.replicate s.length false) ∧
      zscore_mean s = s.sum / (s.length : K) ∧
      zscore_radicand s
        = (s.map (fun x => x ^ 2)).sum / (s.length : K) - (s.sum / (s.length : K)) ^ 2 ∧
      zscore_radicand s
        = 1 / (s.length : K) * (s.map (fun x => (x - s.sum / (s.length : K)) ^ 2)).sum ∧
      zscore_radicand s = population_variance s ∧
      0 ≤ zscore_radicand s ∧
      fsqrt sqrt (zscore_radicand s) = Fl.fin (sqrt (population_variance s)) ∧
      (IsSqrt sqrt → 0 ≤ sqrt (population_variance s) ∧
        sqrt (population_variance s) * sqrt (population_variance s) = population_variance s) := by
  obtain ⟨hne, hd⟩ := new_eq_ok s a ha
  have hpos : 0 < s.length := List.length_pos.mpr hne
  have hpv : zscore_radicand s = population_variance s := by
    rw [zscore_radicand_eq, spec_radicand_eq_population_variance s hpos]
  have hnn : 0 ≤ zscore_radicand s := by
    rw [zscore_radicand_eq]
    exact spec_radicand_nonneg s
  refine ⟨?_, zscore_mean_eq s, ?_, ?_, hpv, hnn, ?_, fun hsqrt => ?_⟩
  · rw [detect_anomalies_zscore_unfold, hd]
  · rw [zscore_radicand_eq]
    rfl
  · rw [hpv]
    rfl
  · rw [fsqrt, if_neg (not_lt.mpr hnn), hpv]
  · exact hsqrt _ (by rw [← hpv]; exact hnn)

/-- An instance of C15 on `[1, 1, 1, 1, 100]`: both sides are `1568.16`. -/
theorem zscore_radicand_is_population_variance_witness :
    zscore_radicand [(1 : ℚ), 1, 1, 1, 100] = population_variance [(1 : ℚ), 1, 1, 1, 100] ∧
      zscore_radicand [(1 : ℚ), 1, 1, 1, 100] = 39204 / 25 ∧
      population_variance [(1 : ℚ), 1, 1, 1, 100] = 39204 / 25 := by
  refine ⟨(zscore_radicand_is_population_variance qsqrt [(1 : ℚ), 1, 1, 1, 100]
    { data := [1, 1, 1, 1, 100] } 1 rfl).2.2.2.2.1, ?_, ?_⟩
  · norm_num [zscore_radicand, zscore_mean]
  · norm_num [population_variance, spec_mean]

/-- The mean of a constant series is its constant. -/
theorem spec_mean_const (s : List K) (c : K) (hne : 0 < s.length) (hconst : ∀ x ∈ s, x = c) :
    spec_mean s = c := by
  have hn : (s.length : K) ≠ 0 := by exact_mod_cast (Nat.pos_iff_ne_zero.mp hne)
  have hs : s = List.replicate s.length c := List.eq_replicate_iff.mpr ⟨rfl, hconst⟩
  rw [spec_mean, hs, List.sum_replicate, List.length_replicate, nsmul_eq_mul]
  field_simp

/-- The population variance of a constant series is zero. -/
theorem population_variance_const (s : List K) (c : K) (hne : 0 < s.length)
    (hconst : ∀ x ∈ s, x = c) : population_variance s = 0 := by
  have hzero : s.map (fun x => (x - spec_mean s) ^ 2) = List.replicate s.length 0 := by
    apply List.eq_replicate_iff.mpr
    refine ⟨List.length_map _ _, fun y hy => ?_⟩
    obtain ⟨x, hx, rfl⟩ := List.mem_map.mp hy
    rw [spec_mean_const s c hne hconst, hconst x hx, sub_self]
    exact zero_pow two_ne_zero
  rw [population_variance, hzero, List.sum_replicate, smul_zero, mul_zero]

/-- C16, amended: in exact arithmetic, for a series accepted by the constructor
whose samples are all equal to `c`, the `zscore` branch computes `mean = c`,
takes the square root of `0`, so `std_dev = 0` (as `sqrt 0 = 0`), and at every
sample the numerator `|s[i] - mean|` is `0`: the z-score is the quotient
`0 / 0`, a `NaN`, at every position, and no sample is flagged. -/
theorem zscore_constant_series (sqrt : K → K) (s : List K) (a : TimeSeriesAnalyzer K)
    (c threshold : K) (ha : TimeSeriesAnalyzer.new s = Except.ok a)
    (hconst : ∀ x ∈ s, x = c) (hsqrt : sqrt 0 = 0) :
    zscore_mean s = c ∧
      zscore_radicand s = 0 ∧
      fsqrt sqrt (zscore_radicand s) = Fl.fin 0 ∧
      (∀ x ∈ s, |x - zscore_mean s| = 0 ∧
        fdiv |x - zscore_mean s| (fsqrt sqrt (zscore_radicand s)) = Fl.nan) ∧
      a.detect_anomalies sqrt "zscore" threshold
        = Except.ok (List.replicate s.length false) := by
  obtain ⟨hne, hd⟩ := new_eq_ok s a ha
  have hpos : 0 < s.length := List.length_pos.mpr hne
  have hmean : zscore_mean s = c := by
    rw [zscore_mean_eq, spec_mean_const s c hpos hconst]
  have hrad : zscore_radicand s = 0 := by
    rw [zscore_radicand_eq, spec_radicand_eq_population_variance s hpos,
      population_variance_const s c hpos hconst]
  have hsd : fsqrt sqrt (zscore_radicand s) = Fl.fin 0 := by
    rw [hrad, fsqrt, if_neg (lt_irrefl 0), hsqrt]
  have hnum : ∀ x ∈ s, |x - zscore_mean s| = 0 := by
    intro x hx
    rw [hmean, hconst x hx, sub_self, abs_zero]
  have hquot : ∀ x ∈ s, fdiv |x - zscore_mean s| (fsqrt sqrt (zscore_radicand s)) = Fl.nan := by
    intro x hx
    rw [hnum x hx, hsd, fdiv, if_pos rfl, if_pos rfl]
  refine ⟨hmean, hrad, hsd, fun x hx => ⟨hnum x hx, hquot x hx⟩, ?_⟩
  rw [detect_anomalies_zscore_eq, hd, ← zscore_mean_eq, ← zscore_radicand_eq]
  congr 1
  apply List.eq_replicate_iff.mpr
  refine ⟨List.length_map _ _, fun y hy => ?_⟩
  obtain ⟨x, hx, rfl⟩ := List.mem_map.mp hy
  rw [hquot x hx]
  rfl

/-- An instance of the amended C16 on `[5, 5, 5]` with threshold `-1`. -/
theorem zscore_constant_series_witness :
    zscore_mean [(5 : ℚ), 5, 5] = 5 ∧
      zscore_radicand [(5 : ℚ), 5, 5] = 0 ∧
      fsqrt qsqrt (zscore_radicand [(5 : ℚ), 5, 5]) = Fl.fin 0 ∧
      (∀ x ∈ [(5 : ℚ), 5, 5], |x - zscore_mean [(5 : ℚ), 5, 5]| = 0 ∧
        fdiv |x - zscore_mean [(5 : ℚ), 5, 5]| (fsqrt qsqrt (zscore_radicand [(5 : ℚ), 5, 5]))
          = Fl.nan) ∧
      TimeSeriesAnalyzer.detect_anomalies qsqrt { data := [(5 : ℚ), 5, 5] } "zscore" (-1)
        = Except.ok (List.replicate [(5 : ℚ), 5, 5].length false) :=
  zscore_constant_series qsqrt [(5 : ℚ), 5, 5] { data := [5, 5, 5] } 5 (-1) rfl
    (by simp) (by simp [qsqrt])

end StandardDeviation

end TimeSeries

/-! ## Index safety -/

namespace TimeSeries

section IndexSafety

variable {K : Type} [LinearOrderedField K]

/-- On a 64-bit `size_t` the product `3 * size()` of the `iqr` branch does not
wrap for any vector of fewer than `2 ^ 62` elements. -/
theorem quartile_index_no_wrap (n : Nat) (h : n < 2 ^ 62) : 3 * n < 2 ^ 64 := by
  omega

/-- C17: on an object built by the constructor from `s`, with `n ≥ 1` samples,
no call of `moving_average`, `exponential_smoothing` or `detect_anomalies`
makes an element access outside a vector.  The index arithmetic does not go
below zero: for `1 ≤ w ≤ n` the size `n - w + 1` is at least `1`, and for every
loop index `1 ≤ i < n - w + 1` the reads at `i + w - 1` and `i - 1` are inside
`data`; in `exponential_smoothing` index `0` and, for `1 ≤ t < n`, the indices
`t` and `t - 1` are valid; in the `iqr` branch `n / 4 < n` and `3 * n / 4 < n`. -/
theorem index_safety (sqrt : K → K) (s : List K) (a : TimeSeriesAnalyzer K)
    (ha : TimeSeriesAnalyzer.new s = Except.ok a) :
    (∀ w, a.moving_average w ≠ Except.error Error.out_of_range) ∧
      (∀ alpha, a.exponential_smoothing alpha ≠ Except.error Error.out_of_range) ∧
      (∀ method threshold,
        a.detect_anomalies sqrt method threshold ≠ Except.error Error.out_of_range) ∧
      1 ≤ s.length ∧
      (∀ w, 1 ≤ w → w ≤ s.length →
        (0 : ℤ) ≤ (s.length : ℤ) - (w : ℤ) ∧ 1 ≤ s.length - w + 1 ∧
        ∀ i, 1 ≤ i → i < s.length - w + 1 →
          (0 : ℤ) ≤ (i : ℤ) + (w : ℤ) - 1 ∧ i + w - 1 < s.length ∧
          (0 : ℤ) ≤ (i : ℤ) - 1 ∧ i - 1 < s.length) ∧
      (0 < s.length ∧ ∀ t, 1 ≤ t → t < s.length →
        (0 : ℤ) ≤ (t : ℤ) - 1 ∧ t - 1 < s.length) ∧
      (s.length / 4 < s.length ∧ 3 * s.length / 4 < s.length) := by
  obtain ⟨hne, hd⟩ := new_eq_ok s a ha
  have hpos : 0 < s.length := List.length_pos.mpr hne
  have hposa : 0 < a.data.length := by rw [hd]; exact hpos
  refine ⟨fun w => ?_, fun alpha => ?_, fun method threshold => ?_, hpos, ?_, ?_, ?_⟩
  · by_cases h0 : w ≤ 0
    · rw [TimeSeriesAnalyzer.moving_average, if_pos h0]
      intro h
      cases h
    · by_cases h1 : w > a.data.length
      · rw [TimeSeriesAnalyzer.moving_average, if_neg h0, if_pos h1]
        intro h
        cases h
      · rw [moving_average_eq a w (by omega) (by omega)]
        intro h
        cases h
  · by_cases hg : alpha < 0 ∨ alpha > 1
    · rw [TimeSeriesAnalyzer.exponential_smoothing, if_pos hg]
      intro h
      cases h
    · obtain ⟨out, hout, _⟩ := exponential_smoothing_spec a alpha hposa
        (not_lt.mp (fun hlt => hg (Or.inl hlt))) (not_lt.mp (fun hgt => hg (Or.inr hgt)))
      rw [hout]
      intro h
      cases h
  · by_cases hz : method = "zscore"
    · subst hz
      rw [detect_anomalies_zscore_eq]
      intro h
      cases h
    · by_cases hi : method = "iqr"
      · subst hi
        obtain ⟨Q1, Q3, _, _, hres⟩ := detect_anomalies_iqr_eq sqrt a threshold hposa
        rw [hres]
        intro h
        cases h
      · rw [TimeSeriesAnalyzer.detect_anomalies, if_neg hz, if_neg hi]
        intro h
        cases h
  · intro w hw1 hwn
    refine ⟨by omega, by omega, fun i hi1 hi2 => ⟨by omega, by omega, by omega, by omega⟩⟩
  · exact ⟨hpos, fun t ht1 htn => ⟨by omega, by omega⟩⟩
  · exact quartile_index_lt s.length hpos

/-- An instance of C17 on `[4, 8, 6]`: the smallest window, the largest one and
the `iqr` branch make no access outside a vector. -/
theorem index_safety_witness :
    TimeSeriesAnalyzer.moving_average { data := [(4 : ℚ), 8, 6] } 1
        ≠ Except.error Error.out_of_range ∧
      TimeSeriesAnalyzer.moving_average { data := [(4 : ℚ), 8, 6] } 3
        ≠ Except.error Error.out_of_range ∧
      TimeSeriesAnalyzer.detect_anomalies qsqrt { data := [(4 : ℚ), 8, 6] } "iqr" 1
        ≠ Except.error Error.out_of_range ∧
      [(4 : ℚ), 8, 6].length / 4 < [(4 : ℚ), 8, 6].length ∧
      3 * [(4 : ℚ), 8, 6].length / 4 < [(4 : ℚ), 8, 6].length :=
  ⟨(index_safety qsqrt [(4 : ℚ), 8, 6] { data := [4, 8, 6] } rfl).1 1,
    (index_safety qsqrt [(4 : ℚ), 8, 6] { data := [4, 8, 6] } rfl).1 3,
    (index_safety qsqrt [(4 : ℚ), 8, 6] { data := [4, 8, 6] } rfl).2.2.1 "iqr" 1,
    (index_safety qsqrt [(4 : ℚ), 8, 6] { data := [4, 8, 6] } rfl).2.2.2.2.2.2⟩

end IndexSafety

end TimeSeries

/-! ## The ceiling of the z-score -/

namespace TimeSeries

section ZScoreCeiling

variable {K : Type} [LinearOrderedField K]

/-- The square of a sum is at most the length times the sum of the squares. -/
theorem sq_sum_le_length_mul (l : List K) :
    l.sum ^ 2 ≤ (l.length : K) * (l.map (fun x => x ^ 2)).sum := by
  by_cases hl : l = []
  · subst hl
    simp
  · have hpos : (0 : K) < (l.length : K) := by exact_mod_cast List.length_pos.mpr hl
    have h := sum_sq_nonneg l (l.sum / (l.length : K))
    rw [sum_sq_dev] at h
    have e : (l.map (fun x => x ^ 2)).sum - 2 * (l.sum / (l.length : K)) * l.sum
        + (l.length : K) * (l.sum / (l.length : K)) ^ 2
        = ((l.length : K) * (l.map (fun x => x ^ 2)).sum - l.sum ^ 2) / (l.length : K) := by
      field_simp
      ring
    rw [e] at h
    have h2 : 0 ≤ (l.length : K) * (l.map (fun x => x ^ 2)).sum - l.sum ^ 2 := by
      by_contra hneg
      exact absurd h (not_le.mpr (div_neg_of_neg_of_pos (not_le.mp hneg) hpos))
    exact sub_nonneg.mp h2

/-- The sum of the deviations from `m`. -/
theorem sum_map_sub (l : List K) (m : K) :
    (l.map (fun y => y - m)).sum = l.sum - (l.length : K) * m := by
  induction l with
  | nil => simp
  | cons x xs ih =>
    simp only [List.map_cons, List.sum_cons, List.length_cons, Nat.cast_add, Nat.cast_one]
    rw [ih]
    ring

/-- One squared deviation from the mean `m` of a series of `n` samples is at
most `(n - 1) / n` times the sum of all of them. -/
theorem sq_dev_le (l1 l2 : List K) (x m : K)
    (hm : (l1 ++ x :: l2).sum = ((l1 ++ x :: l2).length : K) * m) :
    ((l1 ++ x :: l2).length : K) * (x - m) ^ 2
      ≤ (((l1 ++ x :: l2).length : K) - 1)
          * ((l1 ++ x :: l2).map (fun y => (y - m) ^ 2)).sum := by
  have hA := sq_sum_le_length_mul ((l1 ++ l2).map (fun y => y - m))
  rw [sum_map_sub, List.map_map, List.length_map] at hA
  simp only [List.sum_append, List.sum_cons, List.length_append, List.length_cons,
    Nat.cast_add, Nat.cast_one, List.map_append, List.map_cons] at hm hA ⊢
  have hdev : l1.sum + l2.sum - ((l1.length : K) + (l2.length : K)) * m = m - x := by
    linear_combination hm
  rw [hdev] at hA
  have hsq : ∀ l : List K, (l.map ((fun z => z ^ 2) ∘ fun y => y - m)).sum
      = (l.map (fun y => (y - m) ^ 2)).sum := fun l => rfl
  rw [hsq, hsq] at hA
  nlinarith [hA]

/-- No squared deviation from the mean exceeds `n - 1` times the radicand of
the spec. -/
theorem sq_dev_le_radicand (s : List K) (x : K) (hx : x ∈ s) :
    (x - spec_mean s) ^ 2 ≤ ((s.length : K) - 1) * spec_radicand s := by
  have hpos : 0 < s.length := List.length_pos_of_mem hx
  have hn : (0 : K) < (s.length : K) := by exact_mod_cast hpos
  obtain ⟨l1, l2, hs⟩ := List.append_of_mem hx
  have hm : s.sum = (s.length : K) * spec_mean s := by
    rw [spec_mean]
    field_simp
  have h := sq_dev_le l1 l2 x (spec_mean s) (by rw [← hs]; exact hm)
  rw [← hs] at h
  rw [spec_radicand_eq_variance s hpos, ← mul_div_assoc, le_div_iff₀ hn]
  linarith

/-- With a square-root function, a threshold `t ≥ 0` with `t ^ 2 ≥ n - 1` is
exceeded by the z-score of no sample. -/
theorem zscore_flag_false (sqrt : K → K) (hsqrt : IsSqrt sqrt) (s : List K) (t x : K)
    (ht0 : 0 ≤ t) (ht : (s.length : K) - 1 ≤ t ^ 2) (hx : x ∈ s) :
    fgt (fdiv |x - spec_mean s| (fsqrt sqrt (spec_radicand s))) t = false := by
  have hrad := spec_radicand_nonneg s
  obtain ⟨hsd0, hsd⟩ := hsqrt (spec_radicand s) hrad
  have hdev := sq_dev_le_radicand s x hx
  rw [fsqrt, if_neg (not_lt.mpr hrad), fdiv]
  by_cases hz : sqrt (spec_radicand s) = 0
  · have hrz : spec_radicand s = 0 := by rw [← hsd, hz, mul_zero]
    rw [hrz, mul_zero] at hdev
    have hxm : x - spec_mean s = 0 := by
      have := le_antisymm hdev (sq_nonneg _)
      exact pow_eq_zero_iff two_ne_zero |>.mp this
    rw [if_pos hz, hxm, abs_zero, if_pos rfl]
    rfl
  · have hsdpos : 0 < sqrt (spec_radicand s) := lt_of_le_of_ne hsd0 (Ne.symm hz)
    have hbound : (x - spec_mean s) ^ 2 ≤ (t * sqrt (spec_radicand s)) ^ 2 := by
      have e : (t * sqrt (spec_radicand s)) ^ 2 = t ^ 2 * spec_radicand s := by
        rw [mul_pow, pow_two (sqrt (spec_radicand s)), hsd]
      rw [e]
      exact le_trans hdev (mul_le_mul_of_nonneg_right ht hrad)
    have habs : |x - spec_mean s| ≤ t * sqrt (spec_radicand s) := by
      have := sq_le_sq.mp hbound
      rwa [abs_of_nonneg (mul_nonneg ht0 hsd0)] at this
    have hq : |x - spec_mean s| / sqrt (spec_radicand s) ≤ t := by
      rw [div_le_iff₀ hsdpos]
      exact habs
    rw [if_neg hz, fgt]
    exact decide_eq_false (not_lt.mpr hq)

/-- C18: for a series `s` of `n` samples accepted by the constructor, with
`std::sqrt` the square root: no squared deviation from the mean exceeds
`n - 1` times the population variance; so for every threshold `t ≥ 0` with
`t ^ 2 ≥ n - 1`, `detect_anomalies "zscore" t` flags no sample, and the default
call, with method "zscore" and threshold `3`, returns all-false when
`n ≤ 10`. -/
theorem zscore_ceiling (sqrt : K → K) (s : List K) (a : TimeSeriesAnalyzer K)
    (ha : TimeSeriesAnalyzer.new s = Except.ok a) (hsqrt : IsSqrt sqrt) :
    (∀ x ∈ s, (x - spec_mean s) ^ 2 ≤ ((s.length : K) - 1) * population_variance s) ∧
      (∀ t : K, 0 ≤ t → (s.length : K) - 1 ≤ t ^ 2 →
        a.detect_anomalies sqrt "zscore" t = Except.ok (List.replicate s.length false)) ∧
      (s.length ≤ 10 →
        a.detect_anomalies_default sqrt = Except.ok (List.replicate s.length false)) := by
  obtain ⟨hne, hd⟩ := new_eq_ok s a ha
  have hpos : 0 < s.length := List.length_pos.mpr hne
  have hall : ∀ t : K, 0 ≤ t → (s.length : K) - 1 ≤ t ^ 2 →
      a.detect_anomalies sqrt "zscore" t = Except.ok (List.replicate s.length false) := by
    intro t ht0 ht
    rw [detect_anomalies_zscore_eq, hd]
    congr 1
    apply List.eq_replicate_iff.mpr
    refine ⟨List.length_map _ _, fun y hy => ?_⟩
    obtain ⟨x, hx, rfl⟩ := List.mem_map.mp hy
    exact zscore_flag_false sqrt hsqrt s t x ht0 ht hx
  refine ⟨fun x hx => ?_, hall, fun h10 => ?_⟩
  · rw [← spec_radicand_eq_population_variance s hpos]
    exact sq_dev_le_radicand s x hx
  · rw [TimeSeriesAnalyzer.detect_anomalies_default]
    apply hall 3 (by norm_num)
    have h : (s.length : K) ≤ 10 := by exact_mod_cast h10
    norm_num
    linarith

/-- An instance of C18 over the real numbers: on `[1, 1, 1, 1, 100]`, where the
z-score of `100` is exactly `2 = sqrt (5 - 1)`, the threshold `2` flags
nothing, and neither does the default call. -/
theorem zscore_ceiling_witness :
    TimeSeriesAnalyzer.detect_anomalies Real.sqrt { data := [(1 : ℝ), 1, 1, 1, 100] } "zscore" 2
        = Except.ok (List.replicate [(1 : ℝ), 1, 1, 1, 100].length false) ∧
      TimeSeriesAnalyzer.detect_anomalies_default Real.sqrt { data := [(1 : ℝ), 1, 1, 1, 100] }
        = Except.ok (List.replicate [(1 : ℝ), 1, 1, 1, 100].length false) :=
  ⟨(zscore_ceiling Real.sqrt [(1 : ℝ), 1, 1, 1, 100] { data := [1, 1, 1, 1, 100] } rfl
      isSqrt_real).2.1 2 (by norm_num) (by norm_num),
    (zscore_ceiling Real.sqrt [(1 : ℝ), 1, 1, 1, 100] { data := [1, 1, 1, 1, 100] } rfl
      isSqrt_real).2.2 (by simp)⟩

end ZScoreCeiling

end TimeSeries

/-! ## The middle of the series under the `iqr` method -/

namespace TimeSeries

section IqrMiddle

variable {K : Type} [LinearOrderedField K]

/-- C19: for a series `s` of `n` samples accepted by the constructor and a
threshold `≥ 0`, with `Q1 = sorted[n / 4]` and `Q3 = sorted[3 * n / 4]` taken
from the ascending-sorted copy of `s`: `Q1 ≤ Q3`, so `IQR ≥ 0` and the lower
bound is at most the upper bound; every sample with `Q1 ≤ s[i] ≤ Q3` is flagged
false by `detect_anomalies "iqr"`; and the result has a false entry. -/
theorem iqr_middle_not_flagged (sqrt : K → K) (s : List K) (a : TimeSeriesAnalyzer K)
    (threshold : K) (sorted : List K) (ha : TimeSeriesAnalyzer.new s = Except.ok a)
    (ht : 0 ≤ threshold) (hsorted : sorted.Sorted (fun x y => x ≤ y))
    (hperm : sorted.Perm s) :
    ∃ Q1 Q3 out, sorted[s.length / 4]? = some Q1 ∧ sorted[3 * s.length / 4]? = some Q3 ∧
      a.detect_anomalies sqrt "iqr" threshold = Except.ok out ∧
      Q1 ≤ Q3 ∧ 0 ≤ Q3 - Q1 ∧
      Q1 - threshold * (Q3 - Q1) ≤ Q3 + threshold * (Q3 - Q1) ∧
      (∀ (i : Nat) (x : K), s[i]? = some x → Q1 ≤ x → x ≤ Q3 → out[i]? = some false) ∧
      false ∈ out := by
  obtain ⟨hne, hd⟩ := new_eq_ok s a ha
  have hpos : 0 < a.data.length := by rw [hd]; exact List.length_pos.mpr hne
  have hsame : sorted = s.insertionSort (fun x y => x ≤ y) :=
    List.eq_of_perm_of_sorted (hperm.trans (List.perm_insertionSort _ s).symm) hsorted
      (List.sorted_insertionSort _ s)
  obtain ⟨Q1, Q3, h1, h3, hres⟩ := detect_anomalies_iqr_eq sqrt a threshold hpos
  rw [hd] at h1 h3 hres
  rw [← hsame] at h1 h3
  have hq : Q1 ≤ Q3 := sorted_index_le sorted hsorted _ _ Q1 Q3 (by omega) h1 h3
  have hiqr : 0 ≤ Q3 - Q1 := sub_nonneg.mpr hq
  have hmargin : 0 ≤ threshold * (Q3 - Q1) := mul_nonneg ht hiqr
  have hmid : ∀ (i : Nat) (x : K), s[i]? = some x → Q1 ≤ x → x ≤ Q3 →
      (s.map (fun x => decide (x < Q1 - threshold * (Q3 - Q1))
        || decide (x > Q3 + threshold * (Q3 - Q1))))[i]? = some false := by
    intro i x hx hlo hhi
    have hnl : ¬ (x < Q1 - threshold * (Q3 - Q1)) := by
      intro h
      linarith
    have hnu : ¬ (x > Q3 + threshold * (Q3 - Q1)) := by
      intro h
      linarith
    rw [List.getElem?_map, hx, Option.map_some', decide_eq_false hnl, decide_eq_false hnu]
    rfl
  refine ⟨Q1, Q3, _, h1, h3, hres, hq, hiqr, by linarith, hmid, ?_⟩
  have hmem : Q1 ∈ s := (hperm.mem_iff).mp (List.mem_iff_getElem?.mpr ⟨_, h1⟩)
  obtain ⟨i, hi⟩ := List.mem_iff_getElem?.mp hmem
  exact List.mem_iff_getElem?.mpr ⟨i, hmid i Q1 hi le_rfl hq⟩

/-- An instance of C19 on `[100, 3, 1, 4, 2]` with threshold `0`, where the
bounds are the quartiles themselves. -/
theorem iqr_middle_not_flagged_witness :
    ∃ Q1 Q3 out, [(1 : ℚ), 2, 3, 4, 100][[(100 : ℚ), 3, 1, 4, 2].length / 4]? = some Q1 ∧
      [(1 : ℚ), 2, 3, 4, 100][3 * [(100 : ℚ), 3, 1, 4, 2].length / 4]? = some Q3 ∧
      TimeSeriesAnalyzer.detect_anomalies qsqrt { data := [(100 : ℚ), 3, 1, 4, 2] } "iqr" 0
        = Except.ok out ∧
      Q1 ≤ Q3 ∧ 0 ≤ Q3 - Q1 ∧
      Q1 - 0 * (Q3 - Q1) ≤ Q3 + 0 * (Q3 - Q1) ∧
      (∀ (i : Nat) (x : ℚ), [(100 : ℚ), 3, 1, 4, 2][i]? = some x → Q1 ≤ x → x ≤ Q3 →
        out[i]? = some false) ∧
      false ∈ out :=
  iqr_middle_not_flagged qsqrt [(100 : ℚ), 3, 1, 4, 2] { data := [100, 3, 1, 4, 2] } 0
    [1, 2, 3, 4, 100] rfl le_rfl (by norm_num [List.Sorted])
    (by
      have h : List.insertionSort (fun x y => x ≤ y) [(100 : ℚ), 3, 1, 4, 2]
          = [1, 2, 3, 4, 100] := by
        norm_num [List.insertionSort, List.orderedInsert]
      rw [← h]
      exact List.perm_insertionSort _ _)

end IqrMiddle

end TimeSeries

/-! ## The range of `exponential_smoothing` -/

namespace TimeSeries

/-- A sample at an index below `k` belongs to the first `k` samples. -/
theorem mem_take_of_index {α : Type} (s : List α) (i k : Nat) (x : α) (hik : i < k)
    (hx : s[i]? = some x) : x ∈ s.take k :=
  List.mem_iff_getElem?.mpr ⟨i, by rw [List.getElem?_take_of_lt hik, hx]⟩

/-- A shorter prefix is contained in a longer one. -/
theorem mem_take_succ {α : Type} (s : List α) (k : Nat) (y : α) (hy : y ∈ s.take k) :
    y ∈ s.take (k + 1) := by
  obtain ⟨i, hi⟩ := List.mem_iff_getElem?.mp hy
  rw [List.getElem?_take] at hi
  by_cases hik : i < k
  · rw [if_pos hik] at hi
    exact mem_take_of_index s i (k + 1) y (by omega) hi
  · rw [if_neg hik] at hi
    cases hi

section SmoothingRange

variable {K : Type} [LinearOrderedField K]

/-- A value between `lo` and `hi`, mixed with weights `alpha` and `1 - alpha`
with another such value, stays between `lo` and `hi`. -/
theorem convex_between (alpha x p lo hi : K) (h0 : 0 ≤ alpha) (h1 : alpha ≤ 1)
    (hx : lo ≤ x ∧ x ≤ hi) (hp : lo ≤ p ∧ p ≤ hi) :
    lo ≤ alpha * x + (1 - alpha) * p ∧ alpha * x + (1 - alpha) * p ≤ hi := by
  have h1a : 0 ≤ 1 - alpha := sub_nonneg.mpr h1
  constructor
  · nlinarith [mul_nonneg h0 (sub_nonneg.mpr hx.1), mul_nonneg h1a (sub_nonneg.mpr hp.1)]
  · nlinarith [mul_nonneg h0 (sub_nonneg.mpr hx.2), mul_nonneg h1a (sub_nonneg.mpr hp.2)]

/-- An output that starts with the first sample and follows the recurrence
stays, at index `t`, within any bounds of the samples `s[0], ..., s[t]`. -/
theorem recurrence_between (s out : List K) (alpha : K) (h0 : 0 ≤ alpha) (h1 : alpha ≤ 1)
    (hzero : out[0]? = s[0]?)
    (hrec : ∀ t, 1 ≤ t → t < s.length → ∃ x p, s[t]? = some x ∧ out[t - 1]? = some p ∧
      out[t]? = some (alpha * x + (1 - alpha) * p)) :
    ∀ t, t < s.length → ∀ lo hi : K, (∀ y ∈ s.take (t + 1), lo ≤ y ∧ y ≤ hi) →
      ∃ v, out[t]? = some v ∧ lo ≤ v ∧ v ≤ hi := by
  intro t
  induction t with
  | zero =>
    intro ht lo hi hb
    have hs0 : s[0]? = some s[0] := List.getElem?_eq_getElem ht
    refine ⟨s[0], by rw [hzero, hs0], hb _ (mem_take_of_index s 0 1 _ (by omega) hs0)⟩
  | succ t ih =>
    intro ht lo hi hb
    obtain ⟨x, p, hx, hp, ho⟩ := hrec (t + 1) (by omega) ht
    have e : t + 1 - 1 = t := by omega
    rw [e] at hp
    obtain ⟨v, hv, hvb⟩ := ih (by omega) lo hi
      (fun y hy => hb y (mem_take_succ s (t + 1) y hy))
    rw [hp] at hv
    cases hv
    exact ⟨_, ho, convex_between alpha x p lo hi h0 h1
      (hb x (mem_take_of_index s (t + 1) (t + 1 + 1) x (by omega) hx)) hvb⟩

/-- C20: for a series `s` accepted by the constructor and `0 ≤ alpha ≤ 1`,
every element `out[t]` of `exponential_smoothing alpha` lies between the
minimum and the maximum of the samples `s[0], ..., s[t]`, hence between the
minimum and the maximum of `s`, bounds included. -/
theorem exponential_smoothing_in_range (s : List K) (a : TimeSeriesAnalyzer K) (alpha : K)
    (ha : TimeSeriesAnalyzer.new s = Except.ok a) (h0 : 0 ≤ alpha) (h1 : alpha ≤ 1) :
    ∃ out, a.exponential_smoothing alpha = Except.ok out ∧ out.length = s.length ∧
      ∀ (t : Nat) (v : K), out[t]? = some v →
        (s.take (t + 1)).minimum ≤ (v : WithTop K) ∧
        (v : WithBot K) ≤ (s.take (t + 1)).maximum ∧
        s.minimum ≤ (v : WithTop K) ∧
        (v : WithBot K) ≤ s.maximum := by
  obtain ⟨hne, hd⟩ := new_eq_ok s a ha
  have hpos : 0 < s.length := List.length_pos.mpr hne
  obtain ⟨out, hout, hlen, hzero, hrec⟩ :=
    exponential_smoothing_spec a alpha (by rw [hd]; exact hpos) h0 h1
  rw [hd] at hlen hzero hrec
  refine ⟨out, hout, hlen, fun t v hv => ?_⟩
  have ht : t < s.length := by
    rw [← hlen]
    exact (List.getElem?_eq_some.mp hv).1
  have hpre : s.take (t + 1) ≠ [] := by
    intro h
    have hl : (s.take (t + 1)).length = 0 := by rw [h]; rfl
    rw [List.length_take] at hl
    omega
  obtain ⟨lo, hlo⟩ := WithTop.ne_top_iff_exists.mp (List.minimum_ne_top_of_ne_nil hpre)
  obtain ⟨hi, hhi⟩ := WithBot.ne_bot_iff_exists.mp (List.maximum_ne_bot_of_ne_nil hpre)
  obtain ⟨hlomem, hlole⟩ := List.minimum_eq_coe_iff.mp hlo.symm
  obtain ⟨hhimem, hhile⟩ := List.maximum_eq_coe_iff.mp hhi.symm
  obtain ⟨v', hv', hvlo, hvhi⟩ := recurrence_between s out alpha h0 h1 hzero hrec t ht lo hi
    (fun y hy => ⟨hlole y hy, hhile y hy⟩)
  rw [hv] at hv'
  cases hv'
  exact ⟨List.minimum_le_coe_iff.mpr ⟨lo, hlomem, hvlo⟩,
    List.coe_le_maximum_iff.mpr ⟨hi, hhimem, hvhi⟩,
    List.minimum_le_coe_iff.mpr ⟨lo, List.mem_of_mem_take hlomem, hvlo⟩,
    List.coe_le_maximum_iff.mpr ⟨hi, List.mem_of_mem_take hhimem, hvhi⟩⟩

/-- An instance of C20 on `[5, -2, 7]` with `alpha = 1 / 4`, whose output is
`[5, 13 / 4, 67 / 16]`. -/
theorem exponential_smoothing_in_range_witness :
    (∃ out, TimeSeriesAnalyzer.exponential_smoothing { data := [(5 : ℚ), -2, 7] } (1 / 4)
        = Except.ok out ∧ out.length = [(5 : ℚ), -2, 7].length ∧
      ∀ (t : Nat) (v : ℚ), out[t]? = some v →
        ([(5 : ℚ), -2, 7].take (t + 1)).minimum ≤ (v : WithTop ℚ) ∧
        (v : WithBot ℚ) ≤ ([(5 : ℚ), -2, 7].take (t + 1)).maximum ∧
        [(5 : ℚ), -2, 7].minimum ≤ (v : WithTop ℚ) ∧
        (v : WithBot ℚ) ≤ [(5 : ℚ), -2, 7].maximum) ∧
    TimeSeriesAnalyzer.exponential_smoothing { data := [(5 : ℚ), -2, 7] } (1 / 4)
      = Except.ok [5, 13 / 4, 67 / 16] := by
  refine ⟨exponential_smoothing_in_range [(5 : ℚ), -2, 7] { data := [5, -2, 7] } (1 / 4) rfl
    (by norm_num) (by norm_num), ?_⟩
  norm_num [TimeSeriesAnalyzer.exponential_smoothing,
    TimeSeriesAnalyzer.exponential_smoothing_loop, vec_get, vec_set, bind, Except.bind,
    List.replicate]

end SmoothingRange

end TimeSeries
